import Mathlib

/-!
Verification of the skillsmp-mcp skill manager against its specification.

The TypeScript sources are shallowly embedded: regexes become abstract match
predicates on a line, JS machine interaction (network fetch, filesystem
writes, npm) becomes explicit parameters and effect logs, and `Record`s
become insertion-ordered association lists.  JS string `.length` /
`.split(c)` are modelled on Lean strings (code points instead of UTF-16
units; identical on the ASCII data these claims quantify over).
-/

namespace SkillsMP

/-- Severity of a threat (`Threat.severity` in security-scanner.ts). -/
inductive Severity where
  | warning
  | critical
deriving DecidableEq, BEq, Repr

/-- A recorded threat (`Threat` in security-scanner.ts).  `line` is the
1-based line number; multiline hits carry none. -/
structure Threat where
  pattern : String
  severity : Severity
  description : String
  line : Option Nat
  category : String
deriving DecidableEq, BEq, Repr

/-- The five risk levels (`ScanResult.riskLevel`). -/
inductive RiskLevel where
  | safe
  | low
  | medium
  | high
  | critical
deriving DecidableEq, BEq, Repr

/-- A scan result (`ScanResult` in security-scanner.ts). -/
structure ScanResult where
  safe : Bool
  riskLevel : RiskLevel
  threats : List Threat
  recommendation : String
  contentHash : String
deriving Repr

/-- Number of critical threats (`threats.filter(t => t.severity === "critical").length`). -/
def criticalCount (threats : List Threat) : Nat :=
  (threats.filter (fun t => t.severity == Severity.critical)).length

/-- Number of warning threats (`threats.filter(t => t.severity === "warning").length`). -/
def warningCount (threats : List Threat) : Nat :=
  (threats.filter (fun t => t.severity == Severity.warning)).length

/-- The `buildRecommendation` of security-scanner.ts (the no-`filesScanned` call
used by `scanSkillContent`, so the suffix is empty). -/
def buildRecommendation (riskLevel : RiskLevel) (criticalCount warningCount : Nat) : String :=
  match riskLevel with
  | .critical => "BLOCKED: " ++ toString criticalCount ++
      " critical threat(s) found. Do NOT install this skill."
  | .high => "HIGH RISK: " ++ toString warningCount ++
      " suspicious patterns detected. Manual review strongly recommended."
  | .medium => "MODERATE RISK: " ++ toString warningCount ++
      " patterns flagged. Review flagged lines before installing. Not considered safe."
  | .low => "LOW RISK: " ++ toString warningCount ++
      " minor concern(s). Likely safe but review flagged items."
  | .safe => "No threats detected. This skill appears safe to use."

/-- The `buildResult` of security-scanner.ts.  `hash` abstracts
`createHash("sha256")...digest("hex")`. -/
def buildResult (hash : String → String) (threats : List Threat) (content : String) :
    ScanResult :=
  let c := criticalCount threats
  let w := warningCount threats
  let riskLevel : RiskLevel :=
    if c > 0 then .critical
    else if w ≥ 5 then .high
    else if w ≥ 3 then .medium
    else if w ≥ 1 then .low
    else .safe
  { safe := decide (c = 0) && decide (w < 3)
    riskLevel := riskLevel
    threats := threats
    recommendation := buildRecommendation riskLevel c w
    contentHash := hash content }

/-- The risk classification exactly as the specification words it: any
critical threat gives critical, otherwise the warning-count thresholds
5 / 3 / 1 / 0 give high / medium / low / safe. -/
def specRiskLevel (criticalCount warningCount : Nat) : RiskLevel :=
  if criticalCount > 0 then .critical
  else if warningCount ≥ 5 then .high
  else if warningCount ≥ 3 then .medium
  else if warningCount ≥ 1 then .low
  else .safe

/-- Maximum line length before a line is treated as suspicious instead of
being pattern-matched (`MAX_LINE_LENGTH` in constants.ts). -/
def MAX_LINE_LENGTH : Nat := 2000

/-- A single-line threat signature.  The regex is embedded as its match
predicate `test` on one line plus its `regex.source` string `src`. -/
structure ThreatPattern where
  test : String → Bool
  src : String
  severity : Severity
  description : String
  category : String

/-- A multiline threat signature, matched against the (capped) whole content. -/
structure MultilinePattern where
  test : String → Bool
  src : String
  severity : Severity
  description : String
  category : String

/-- Helper for `String.prototype.split` with a one-character separator. -/
def splitOnCharAux (sep : Char) : List Char → List Char → List String
  | [], cur => [String.mk cur.reverse]
  | c :: rest, cur =>
    if c = sep then String.mk cur.reverse :: splitOnCharAux sep rest []
    else splitOnCharAux sep rest (c :: cur)

/-- JS `s.split(sep)` for a single-character separator (used for
`content.split("\n")` and path segmentation on "/"). -/
def splitOnChar (sep : Char) (s : String) : List String :=
  splitOnCharAux sep s.data []

/-- The synthetic threat recorded for an over-long line at 0-based index `i`
(the object literal pushed at security-scanner.ts lines 63-69). -/
def excessiveLineThreat (line : String) (i : Nat) : Threat :=
  { pattern := "excessive-line-length"
    severity := .warning
    description := "Line is " ++ toString line.length ++ " chars — may hide obfuscated content"
    line := some (i + 1)
    category := "obfuscation" }

/-- The regular threat recorded when pattern `p` matches the line at 0-based
index `i` (the object literal pushed at security-scanner.ts lines 80-86). -/
def patternThreat (p : ThreatPattern) (i : Nat) : Threat :=
  { pattern := p.src
    severity := p.severity
    description := p.description
    line := some (i + 1)
    category := p.category }

/-- The dedup test `threats.some(t => t.category === "obfuscation" && t.line === i+1)`. -/
def alreadyFlagged (threats : List Threat) (i : Nat) : Bool :=
  threats.any (fun t => t.category == "obfuscation" && t.line == some (i + 1))

/-- The dedup test `threats.some(t => t.pattern === source && t.severity === severity)`. -/
def alreadyFound (threats : List Threat) (p : ThreatPattern) : Bool :=
  threats.any (fun t => t.pattern == p.src && t.severity == p.severity)

/-- The innermost loop of `scanSkillContent`: one pattern `p` swept over the
remaining lines, the next of which has 0-based index `i`.  Besides the threat
accumulator it logs, as `(p.src, index)` pairs, every `pattern.regex.test(line)`
evaluation actually performed — over-long lines `continue` before the test. -/
def scanPatternLines (p : ThreatPattern) :
    Nat → List String → List Threat → List (String × Nat) →
    List Threat × List (String × Nat)
  | _, [], ts, log => (ts, log)
  | i, line :: rest, ts, log =>
    if line.length > MAX_LINE_LENGTH then
      let ts' := if alreadyFlagged ts i then ts else ts ++ [excessiveLineThreat line i]
      scanPatternLines p (i + 1) rest ts' log
    else
      let log' := log ++ [(p.src, i)]
      let ts' :=
        if p.test line then
          if alreadyFound ts p then ts else ts ++ [patternThreat p i]
        else ts
      scanPatternLines p (i + 1) rest ts' log'

/-- The two outer loops of `scanSkillContent` (`for patterns of
[CRITICAL_PATTERNS, WARNING_PATTERNS] / for pattern of patterns`), flattened
into one pass per pattern of `CRITICAL_PATTERNS ++ WARNING_PATTERNS`. -/
def scanPatternsLines (ps : List ThreatPattern) (lines : List String)
    (ts : List Threat) (log : List (String × Nat)) :
    List Threat × List (String × Nat) :=
  match ps with
  | [] => (ts, log)
  | p :: rest =>
    let r := scanPatternLines p 0 lines ts log
    scanPatternsLines rest lines r.1 r.2

/-- The `content.length > 512_000 ? content.substring(0, 512_000) : content`. -/
def cappedContent (content : String) : String :=
  if content.length > 512000 then String.mk (content.data.take 512000) else content

/-- The multiline-pattern loop of `scanSkillContent` (lines 94-104): every
matching multiline pattern appends one threat without a line number. -/
def scanMultiline (ms : List MultilinePattern) (content : String)
    (ts : List Threat) : List Threat :=
  ms.foldl
    (fun acc m =>
      if m.test (cappedContent content) then
        acc ++ [{ pattern := m.src, severity := m.severity,
                  description := m.description, line := none, category := m.category }]
      else acc)
    ts

/-- The `scanSkillContent` of security-scanner.ts, parameterised by the pattern
catalog and the hash function.  The second component is the instrumentation
log of per-line regex evaluations (not part of the TS return value). -/
def scanSkillContent (hash : String → String) (crit warn : List ThreatPattern)
    (multi : List MultilinePattern) (content : String) :
    ScanResult × List (String × Nat) :=
  let lines := splitOnChar '\n' content
  let r := scanPatternsLines (crit ++ warn) lines [] []
  let ts := scanMultiline multi content r.1
  (buildResult hash ts content, r.2)

/-- A canonical path segment: nonempty and neither "." nor "..".  Segments
obtained from `split("/")` contain no slash by construction. -/
def regSeg (s : String) : Bool :=
  s != "" && s != "." && s != ".."

/-- Normalisation step of node's `path.resolve`/`path.join` on an absolute
path: "", "." are dropped, ".." pops the previous segment (and is dropped at
the root), other segments are kept.  `acc` holds the output reversed. -/
def normSegs : List String → List String → List String
  | [], acc => acc.reverse
  | s :: rest, acc =>
    if s = "" || s = "." then normSegs rest acc
    else if s = ".." then normSegs rest acc.tail
    else normSegs rest (s :: acc)

/-- The `path.resolve(path.join(dir, name))` for an absolute `dir` given as
segments: append `name`'s slash-separated segments and normalise. -/
def resolveJoin (dir : List String) (name : String) : List String :=
  normSegs (dir ++ splitOnChar '/' name) []

/-- The `resolved.startsWith(base + "/")` on canonical slash-rendered paths:
`base` is a proper initial run of `resolved`'s segments. -/
def segsProperPre : List String → List String → Bool
  | [], [] => false
  | [], _ :: _ => true
  | _ :: _, [] => false
  | a :: as, b :: bs => a == b && segsProperPre as bs

/-- The error thrown by `safeSkillPath` on escape. -/
inductive PathError where
  | traversal (name : String)
deriving DecidableEq, Repr

/-- The `safeSkillPath` of installer.ts (and scope-resolver.ts): resolve the
joined path and require it to stay strictly below the skills directory. -/
def safeSkillPath (skillsDir : List String) (name : String) :
    Except PathError (List String) :=
  let resolved := resolveJoin skillsDir name
  let base := normSegs skillsDir []
  if segsProperPre base resolved then .ok resolved
  else .error (.traversal name)

/-- One character of `VALID_SKILL_NAME`'s tail class `[a-zA-Z0-9_-]`. -/
def validNameChar (c : Char) : Bool :=
  c.isAlphanum || c == '_' || c == '-'

/-- The `VALID_SKILL_NAME.test(name)` for `/^[a-zA-Z0-9][a-zA-Z0-9_-]{0,63}$/`. -/
def validateSkillName (s : String) : Bool :=
  match s.data with
  | [] => false
  | c :: rest => c.isAlphanum && decide (rest.length ≤ 63) && rest.all validNameChar

/-- JS `s.toUpperCase()` restricted to the per-character mapping. -/
def jsToUpper (s : String) : String :=
  String.mk (s.data.map Char.toUpper)

/-- JS `s.toLowerCase()` restricted to the per-character mapping. -/
def jsToLower (s : String) : String :=
  String.mk (s.data.map Char.toLower)

/-- JS `s.split(" ")[0]` (JS `split` always yields at least one element). -/
def firstSpaceToken (s : String) : String :=
  (splitOnChar ' ' s).headD ""

/-- The literal string form of a risk level (the TS union values). -/
def riskString : RiskLevel → String
  | .safe => "safe"
  | .low => "low"
  | .medium => "medium"
  | .high => "high"
  | .critical => "critical"

/-- The numeric order of a risk level, as `RISK_LEVEL_ORDER` assigns it. -/
def riskOrder : RiskLevel → Nat
  | .safe => 0
  | .low => 1
  | .medium => 2
  | .high => 3
  | .critical => 4

/-- The `RISK_LEVEL_ORDER[s]` from constants.ts (`undefined` becomes `none`). -/
def riskLevelOrder (s : String) : Option Nat :=
  if s = "safe" then some 0
  else if s = "low" then some 1
  else if s = "medium" then some 2
  else if s = "high" then some 3
  else if s = "critical" then some 4
  else none

/-- The `scanSummary` built by a successful `installSkill`:
`riskLevel.toUpperCase() + " — " + recommendation`. -/
def scanSummaryOf (riskLevel : RiskLevel) (recommendation : String) : String :=
  jsToUpper (riskString riskLevel) ++ " — " ++ recommendation

/-- The sync engine's parse of an install result,
`result.scanSummary.split(" ")[0].toLowerCase()`. -/
def engineRiskToken (scanSummary : String) : String :=
  jsToLower (firstSpaceToken scanSummary)

/-- The sync engine's numeric risk, `RISK_LEVEL_ORDER[riskStr] ?? 0`. -/
def engineRiskNum (scanSummary : String) : Nat :=
  (riskLevelOrder (engineRiskToken scanSummary)).getD 0

/-- The distinct failure modes of `installSkill` (installer.ts throws plain
`Error`s; the constructors record which throw site fired). -/
inductive InstallError where
  | invalidUrl
  | invalidName (name : String)
  | traversal (name : String)
  | alreadyInstalled (name : String)
  | blockedCritical
  | riskRequiresForce (risk : RiskLevel)
  | fetchFailed
deriving DecidableEq, Repr

/-- A fetched file (`SkillFile` in installer.ts). -/
structure SkillFile where
  name : String
  content : String
deriving DecidableEq, Repr

/-- Filesystem effects performed by install/uninstall, in program order. -/
inductive FsOp where
  | rmDir (path : List String)
  | mkDir (path : List String)
  | writeFile (path : List String)
deriving DecidableEq, Repr

/-- The fields of the fetch-and-scan result that `installSkill` consumes. -/
structure ScanOutcome where
  riskLevel : RiskLevel
  recommendation : String
  threats : List Threat
deriving Repr

/-- The `InstallResult` of installer.ts. -/
structure InstallResult where
  success : Bool
  installPath : List String
  filesCount : Nat
  contentHash : String
  scanSummary : String
  hasSkillMd : Bool
  npmInstalled : Bool
  warnings : List String
deriving Repr

/-- State threaded through the file-writing loop of `installSkill`
(steps 6-7): effect log, written contents, warnings, SKILL.md flag. -/
structure WriteState where
  ops : List FsOp
  contents : List String
  warnings : List String
  hasSkillMd : Bool

/-- One iteration of the `for (const file of files)` loop of `installSkill`:
re-resolve the filename below the install path, skip it with a warning if it
escapes, otherwise write it and track content and the SKILL.md flag. -/
def writeOneFile (installPath : List String) (st : WriteState) (f : SkillFile) :
    WriteState :=
  let resolvedFile := resolveJoin installPath f.name
  if segsProperPre installPath resolvedFile || resolvedFile == installPath then
    { st with
      ops := st.ops ++ [.writeFile resolvedFile]
      contents := st.contents ++ [f.content]
      hasSkillMd := st.hasSkillMd || jsToLower f.name == "skill.md" }
  else
    { st with warnings := st.warnings ++ ["Skipped \"" ++ f.name ++ "\": path traversal in filename"] }

/-- The `installSkill` of installer.ts as a pure step function.  External
effects are parameters: `urlOk` is whether `validateGithubUrl` succeeded,
`inferred` is `inferSkillName(parsed)`, `alreadyExists` is the `stat` probe,
`scan` is what `fetchAndScanSkill` returned, `fetched` is what
`fetchSkillFiles` returned (`none` = it threw), `npmOk` the npm exit.  The
second component logs the filesystem operations in program order. -/
def installSkill (hash : String → String) (skillsDir : List String)
    (urlOk : Bool) (inferred : String) (nameArg : Option String)
    (force : Bool) (alreadyExists : Bool) (scan : ScanOutcome)
    (fetched : Option (List SkillFile)) (npmOk : Bool) :
    Except InstallError InstallResult × List FsOp :=
  if !urlOk then (.error .invalidUrl, [])
  else
    let skillName :=
      match nameArg with
      | some n => if n = "" then inferred else n
      | none => inferred
    if !validateSkillName skillName then (.error (.invalidName skillName), [])
    else
      match safeSkillPath skillsDir skillName with
      | .error (.traversal n) => (.error (.traversal n), [])
      | .ok installPath =>
        if alreadyExists && !force then (.error (.alreadyInstalled skillName), [])
        else if scan.riskLevel == RiskLevel.critical then (.error .blockedCritical, [])
        else if (scan.riskLevel == RiskLevel.high || scan.riskLevel == RiskLevel.medium)
            && !force then
          (.error (.riskRequiresForce scan.riskLevel), [])
        else
          let warnings0 : List String :=
            if scan.riskLevel == RiskLevel.low then
              ["Security scan: LOW risk — " ++ scan.recommendation]
            else []
          match fetched with
          | none => (.error .fetchFailed, [])
          | some files =>
            let ops0 : List FsOp := if alreadyExists then [.rmDir installPath] else []
            let st0 : WriteState :=
              { ops := ops0 ++ [.mkDir installPath], contents := [],
                warnings := warnings0, hasSkillMd := false }
            let st := files.foldl (writeOneFile installPath) st0
            let warns1 :=
              if st.hasSkillMd then st.warnings
              else st.warnings ++ ["No SKILL.md found. This skill may not be recognized by Claude Code."]
            let hasPkg := files.any (fun f => f.name == "package.json")
            let npmInstalled := hasPkg && npmOk
            let warns2 :=
              if hasPkg && !npmOk then
                warns1 ++ ["npm install failed. You may need to run it manually."]
              else warns1
            (.ok
              { success := true
                installPath := installPath
                filesCount := files.length
                contentHash := hash (String.intercalate "\n---FILE-BOUNDARY---\n" st.contents)
                scanSummary := scanSummaryOf scan.riskLevel scan.recommendation
                hasSkillMd := st.hasSkillMd
                npmInstalled := npmInstalled
                warnings := warns2 },
             st.ops)

/-- The failure modes of `uninstallSkill`. -/
inductive UninstallError where
  | invalidName (name : String)
  | traversal (name : String)
  | notFound (name : String)
deriving DecidableEq, Repr

/-- The `uninstallSkill` of installer.ts: validate the name, resolve the safe
path, require existence, then remove the tree.  `dirOnDisk` is the `stat`
probe. -/
def uninstallSkill (skillsDir : List String) (name : String) (dirOnDisk : Bool) :
    Except UninstallError (List String) × List FsOp :=
  if !validateSkillName name then (.error (.invalidName name), [])
  else
    match safeSkillPath skillsDir name with
    | .error (.traversal n) => (.error (.traversal n), [])
    | .ok skillPath =>
      if !dirOnDisk then (.error (.notFound name), [])
      else (.ok skillPath, [.rmDir skillPath])

/-- Boolean error test for `Except`. -/
def isErr {ε α : Type} : Except ε α → Bool
  | .error _ => true
  | .ok _ => false

/-- Warnings of a successful result (empty on error). -/
def resultWarnings : Except InstallError InstallResult → List String
  | .ok r => r.warnings
  | .error _ => []

/-- The conflict policy enum of sync-config.ts. -/
inductive ConflictPolicy where
  | skip
  | overwrite
  | unmanage
deriving DecidableEq, BEq, Repr

/-- A subscription (`SyncSubscription` in sync-config.ts). -/
structure Subscription where
  id : String
  query : String
  authors : Option (List String)
  tags : Option (List String)
  limit : Option Int
  sortBy : Option String
  enabled : Option Bool
deriving DecidableEq, Repr

/-- The persisted sync policy (`SyncConfig` in sync-config.ts). -/
structure SyncConfig where
  subscriptions : List Subscription
  syncIntervalHours : Int
  maxRiskLevel : String
  conflictPolicy : ConflictPolicy
  autoRemove : Bool
  enabled : Bool
deriving DecidableEq, Repr

/-- A locked package (`LockedSkill` in sync-lock.ts). -/
structure LockedSkill where
  name : String
  githubUrl : String
  installedHash : String
  upstreamHash : String
  subscriptionIds : List String
  lastSynced : String
  installedAt : String
  riskLevel : String
  filesCount : Int
  hasSkillMd : Bool
  upstreamUpdatedAt : Option String
deriving DecidableEq, Repr

/-- The persisted lock (`SyncLockFile` in sync-lock.ts); the `skills` record
is modelled as an insertion-ordered association list. -/
structure SyncLockFile where
  skills : List (String × LockedSkill)
  lastSyncRun : Option String
  syncCount : Int
deriving DecidableEq, Repr

/-- A discovered skill as `computeSyncDiff` consumes it: `updatedAt` is
`String(disc.skill.updatedAt)`. -/
structure DiscoveredSkill where
  updatedAt : String
  subIds : List String
  inferredName : String
deriving DecidableEq, Repr

/-- An entry of `toInstall`/`toUpdate` in `SyncDiffResult`. -/
structure SyncDiffItem where
  name : String
  githubUrl : String
  subIds : List String
  updatedAt : String
deriving DecidableEq, Repr

/-- An entry of `conflicts` in `SyncDiffResult`. -/
structure SyncConflict where
  name : String
  githubUrl : String
  reason : String
deriving DecidableEq, Repr

/-- An entry of `toRemove` in `SyncDiffResult`. -/
structure SyncRemoval where
  name : String
  githubUrl : String
deriving DecidableEq, Repr

/-- The `SyncDiffResult` of sync-engine.ts. -/
structure SyncDiffResult where
  toInstall : List SyncDiffItem
  toUpdate : List SyncDiffItem
  toRemove : List SyncRemoval
  conflicts : List SyncConflict
deriving DecidableEq, Repr

/-- The `Object.values(lock.skills).find(s => s.githubUrl === githubUrl)`. -/
def lockFindByUrl (lock : SyncLockFile) (githubUrl : String) : Option LockedSkill :=
  (lock.skills.map Prod.snd).find? (fun s => s.githubUrl == githubUrl)

/-- The body of `computeSyncDiff`'s loop over the discovered map, for one
`(githubUrl, disc)` entry.  `registry` is `skillManager.getSkill(name)`
restricted to the `contentHash` field it reads. -/
def processDiscovered (registry : String → Option String) (lock : SyncLockFile)
    (config : SyncConfig) (acc : SyncDiffResult) (entry : String × DiscoveredSkill) :
    SyncDiffResult :=
  let githubUrl := entry.1
  let disc := entry.2
  match lockFindByUrl lock githubUrl with
  | none =>
    { acc with toInstall := acc.toInstall ++
        [{ name := disc.inferredName, githubUrl := githubUrl,
           subIds := disc.subIds, updatedAt := disc.updatedAt }] }
  | some locked =>
    if locked.upstreamUpdatedAt ≠ some disc.updatedAt then
      match registry locked.name with
      | some localHash =>
        if localHash ≠ locked.installedHash then
          match config.conflictPolicy with
          | .skip =>
            { acc with conflicts := acc.conflicts ++
                [{ name := locked.name, githubUrl := githubUrl,
                   reason := "Locally modified — skipped (conflict policy: skip)" }] }
          | .overwrite =>
            { acc with toUpdate := acc.toUpdate ++
                [{ name := locked.name, githubUrl := githubUrl,
                   subIds := disc.subIds, updatedAt := disc.updatedAt }] }
          | .unmanage =>
            { acc with conflicts := acc.conflicts ++
                [{ name := locked.name, githubUrl := githubUrl,
                   reason := "Locally modified — unmanaged (conflict policy: unmanage)" }] }
        else
          { acc with toUpdate := acc.toUpdate ++
              [{ name := locked.name, githubUrl := githubUrl,
                 subIds := disc.subIds, updatedAt := disc.updatedAt }] }
      | none =>
        { acc with toUpdate := acc.toUpdate ++
            [{ name := locked.name, githubUrl := githubUrl,
               subIds := disc.subIds, updatedAt := disc.updatedAt }] }
    else acc

/-- The `computeSyncDiff` of sync-engine.ts.  The discovered map is an
insertion-ordered association list with pairwise-distinct keys (a JS `Map`). -/
def computeSyncDiff (registry : String → Option String)
    (discovered : List (String × DiscoveredSkill)) (lock : SyncLockFile)
    (config : SyncConfig) : SyncDiffResult :=
  let afterDiscovered :=
    discovered.foldl (processDiscovered registry lock config)
      { toInstall := [], toUpdate := [], toRemove := [], conflicts := [] }
  if config.autoRemove then
    let removals :=
      (lock.skills.filter
        (fun nl => !(discovered.any (fun d => d.1 == nl.2.githubUrl)))).map
        (fun nl => { name := nl.1, githubUrl := nl.2.githubUrl : SyncRemoval })
    { afterDiscovered with toRemove := removals }
  else afterDiscovered

/-- A sync action as the engine records it (`SyncAction`, with the `type`
union kept as the literal strings). -/
structure SyncAction where
  type : String
  skillName : String
  githubUrl : String
  reason : String
deriving DecidableEq, Repr

/-- One iteration of phase 3 of `SyncEngine.sync` (lines 243-262): record one
action for the conflict; under the `unmanage` policy (and not a dry run)
delete the entry from the lock. -/
def conflictStep (policy : ConflictPolicy) (dryRun : Bool)
    (acc : List SyncAction × SyncLockFile) (c : SyncConflict) :
    List SyncAction × SyncLockFile :=
  if policy == ConflictPolicy.unmanage then
    (acc.1 ++ [{ type := "unmanage", skillName := c.name,
                 githubUrl := c.githubUrl, reason := c.reason }],
     if dryRun then acc.2
     else { acc.2 with skills := acc.2.skills.filter (fun nl => nl.1 ≠ c.name) })
  else
    (acc.1 ++ [{ type := "skip-conflict", skillName := c.name,
                 githubUrl := c.githubUrl, reason := c.reason }],
     acc.2)

/-- Phase 3 of `SyncEngine.sync` (lines 243-262): process the computed
conflicts.  No filesystem operation is performed in this phase. -/
def processConflicts (conflicts : List SyncConflict) (policy : ConflictPolicy)
    (dryRun : Bool) (lock : SyncLockFile) : List SyncAction × SyncLockFile :=
  conflicts.foldl (conflictStep policy dryRun) ([], lock)

/-- A parsed JSON value (what `JSON.parse` can produce; numbers as integers,
which covers every value these schemas range over). -/
inductive Json where
  | null
  | bool (b : Bool)
  | num (n : Int)
  | str (s : String)
  | arr (elems : List Json)
  | obj (fields : List (String × Json))

/-- Property lookup on a JSON object (`undefined` becomes `none`). -/
def jget (fields : List (String × Json)) (k : String) : Option Json :=
  (fields.find? (fun f => f.1 == k)).map Prod.snd

/-- String extraction. -/
def jStr : Json → Option String
  | .str s => some s
  | _ => none

/-- Boolean extraction. -/
def jBool : Json → Option Bool
  | .bool b => some b
  | _ => none

/-- Number extraction. -/
def jNum : Json → Option Int
  | .num n => some n
  | _ => none

/-- Array extraction. -/
def jArr : Json → Option (List Json)
  | .arr xs => some xs
  | _ => none

/-- A zod `.optional()` field: absent is fine, present must validate. -/
def jOptField (fields : List (String × Json)) (k : String)
    (p : Json → Option α) : Option (Option α) :=
  match jget fields k with
  | none => some none
  | some v => (p v).map some

/-- The `z.array(z.string())`. -/
def jStrList (j : Json) : Option (List String) :=
  (jArr j).bind (fun xs => xs.mapM jStr)

/-- The `subscriptionSchema.parse` of sync-config.ts. -/
def parseSubscription (j : Json) : Option Subscription := do
  let fs ← match j with | .obj fs => some fs | _ => none
  let id ← (jget fs "id").bind jStr
  if id.length < 1 then none
  let query ← (jget fs "query").bind jStr
  if query.length < 1 || query.length > 200 then none
  let authors ← jOptField fs "authors" jStrList
  let tags ← jOptField fs "tags" jStrList
  let limit ← jOptField fs "limit"
    (fun v => (jNum v).bind (fun n => if n < 1 || n > 100 then none else some n))
  let sortBy ← jOptField fs "sortBy"
    (fun v => (jStr v).bind (fun s => if s = "stars" || s = "recent" then some s else none))
  let enabled ← jOptField fs "enabled" jBool
  some { id := id, query := query, authors := authors, tags := tags,
         limit := limit, sortBy := sortBy, enabled := enabled }

/-- The conflict-policy enum decode of `configSchema`. -/
def parseConflictPolicy (s : String) : Option ConflictPolicy :=
  if s = "skip" then some .skip
  else if s = "overwrite" then some .overwrite
  else if s = "unmanage" then some .unmanage
  else none

/-- The `configSchema.parse` of sync-config.ts: `some` is a successful parse,
`none` is a thrown `ZodError`. -/
def parseSyncConfig (j : Json) : Option SyncConfig := do
  let fs ← match j with | .obj fs => some fs | _ => none
  let version ← (jget fs "version").bind jNum
  if version ≠ 1 then none
  let subsJson ← (jget fs "subscriptions").bind jArr
  let subscriptions ← subsJson.mapM parseSubscription
  let interval ← (jget fs "syncIntervalHours").bind jNum
  if interval < 0 || interval > 168 then none
  let maxRisk ← (jget fs "maxRiskLevel").bind jStr
  if maxRisk ≠ "safe" ∧ maxRisk ≠ "low" ∧ maxRisk ≠ "medium" then none
  let policy ← ((jget fs "conflictPolicy").bind jStr).bind parseConflictPolicy
  let autoRemove ← (jget fs "autoRemove").bind jBool
  let enabled ← (jget fs "enabled").bind jBool
  some { subscriptions := subscriptions, syncIntervalHours := interval,
         maxRiskLevel := maxRisk, conflictPolicy := policy,
         autoRemove := autoRemove, enabled := enabled }

/-- The `defaultConfig()` of sync-config.ts (the `SYNC_DEFAULT_*` constants). -/
def defaultConfig : SyncConfig :=
  { subscriptions := []
    syncIntervalHours := 0
    maxRiskLevel := "low"
    conflictPolicy := .skip
    autoRemove := false
    enabled := true }

/-- The `emptyLock()` of sync-lock.ts, as the runtime JSON value. -/
def emptyLockJson : Json :=
  .obj [("version", .num 1), ("skills", .obj []),
        ("lastSyncRun", .null), ("syncCount", .num 0)]

/-- JS truthiness of a JSON value (the `parsed &&` guard). -/
def jsTruthy : Json → Bool
  | .null => false
  | .bool b => b
  | .num n => n != 0
  | .str s => s != ""
  | .arr _ => true
  | .obj _ => true

/-- The `typeof v === "object"` for a JSON value (null and arrays included). -/
def jsTypeofObject : Json → Bool
  | .null => true
  | .arr _ => true
  | .obj _ => true
  | _ => false

/-- Property access `v.k` on an arbitrary JSON value (`undefined` as `none`). -/
def jsProp (j : Json) (k : String) : Option Json :=
  match j with
  | .obj fs => jget fs k
  | _ => none

/-- The inline shape check of `readSyncLock`:
`parsed && typeof parsed === "object" && parsed.version === 1 && typeof parsed.skills === "object"`. -/
def lockShapeOk (j : Json) : Bool :=
  jsTruthy j && jsTypeofObject j
    && ((jsProp j "version").map
          (fun v => match v with | Json.num n => n == 1 | _ => false)).getD false
    && ((jsProp j "skills").map jsTypeofObject).getD false

/-- The observable state of a persisted JSON file when it is read: missing
(`ENOENT`), unreadable for another reason, present but not JSON
(`JSON.parse` throws a `SyntaxError`), or parsed to a JSON value. -/
inductive ReadState where
  | absent
  | ioError (msg : String)
  | unparseable
  | parsed (j : Json)

/-- The `readSyncConfig` of sync-config.ts: `ENOENT` and `ZodError` fall back to
the default config, every other failure — including a `JSON.parse`
`SyntaxError` on malformed text — is rethrown. -/
def readSyncConfig : ReadState → Except String SyncConfig
  | .absent => .ok defaultConfig
  | .ioError m => .error m
  | .unparseable => .error "SyntaxError: Unexpected token in JSON"
  | .parsed j =>
    match parseSyncConfig j with
    | some c => .ok c
    | none => .ok defaultConfig

/-- The `readSyncLock` of sync-lock.ts: `ENOENT` and a failed shape check fall
back to `emptyLock()`, every other failure — including a `JSON.parse`
`SyntaxError` — is rethrown.  The success value is the runtime JSON object
(the code casts `parsed as SyncLockFile` without decoding). -/
def readSyncLock : ReadState → Except String Json
  | .absent => .ok emptyLockJson
  | .ioError m => .error m
  | .unparseable => .error "SyntaxError: Unexpected token in JSON"
  | .parsed j =>
    if lockShapeOk j then .ok j else .ok emptyLockJson

/-! ## Claim C1: risk level and safe flag as pure functions of the counts -/

/-- C1: for every scan result, `riskLevel` is determined solely by the counts
of critical and warning threats — critical > 0 gives critical, else the
warning thresholds 5/3/1/0 give high/medium/low/safe; `safe` equals
(criticalCount = 0 and warningCount < 3); and a result with exactly one
warning threat and no critical threat has riskLevel low and safe = true. -/
theorem riskLevel_determined_by_counts (hash : String → String) (content : String)
    (threats : List Threat) :
    (buildResult hash threats content).riskLevel
        = specRiskLevel (criticalCount threats) (warningCount threats)
    ∧ (buildResult hash threats content).safe
        = (decide (criticalCount threats = 0) && decide (warningCount threats < 3))
    ∧ (criticalCount threats = 0 → warningCount threats = 1 →
        (buildResult hash threats content).riskLevel = RiskLevel.low
        ∧ (buildResult hash threats content).safe = true) := by
  refine ⟨rfl, rfl, ?_⟩
  intro hc hw
  constructor
  · simp [buildResult, hc, hw]
  · simp [buildResult, hc, hw]

/-- A single warning-level threat, as `eval('x')` would produce. -/
def evalWarningThreat : Threat :=
  { pattern := "eval"
    severity := Severity.warning
    description := "Dynamic code execution"
    line := some 1
    category := "dynamic-execution" }

/-- Witness for C1 at a concrete single-warning threat list. -/
theorem riskLevel_determined_by_counts_witness :
    (buildResult (fun _ => "") [evalWarningThreat] "eval(x)").riskLevel = RiskLevel.low
    ∧ (buildResult (fun _ => "") [evalWarningThreat] "eval(x)").safe = true :=
  (riskLevel_determined_by_counts (fun _ => "") "eval(x)"
    [evalWarningThreat]).2.2 (by decide) (by decide)

/-! ## Claim C4: defensive reads of the persisted config and lock -/

/-- C4 counterexample: text that is not parseable JSON makes both
`readSyncConfig` and `readSyncLock` rethrow the `JSON.parse` failure
instead of returning the documented defaults. -/
theorem defensive_read_counterexample :
    readSyncConfig ReadState.unparseable
        = Except.error "SyntaxError: Unexpected token in JSON"
    ∧ readSyncLock ReadState.unparseable
        = Except.error "SyntaxError: Unexpected token in JSON"
    ∧ (Except.error "SyntaxError: Unexpected token in JSON"
        ≠ (Except.ok defaultConfig : Except String SyncConfig))
    ∧ (Except.error "SyntaxError: Unexpected token in JSON"
        ≠ (Except.ok emptyLockJson : Except String Json)) := by
  refine ⟨rfl, rfl, by simp, by simp⟩

/-- C4 amended: a missing file (`ENOENT`) or a file whose JSON parses but
fails the shape validation yields the default config / the empty lock; a
file whose text fails `JSON.parse` makes both readers throw. -/
theorem defensive_read_amended :
    readSyncConfig ReadState.absent = Except.ok defaultConfig
    ∧ readSyncLock ReadState.absent = Except.ok emptyLockJson
    ∧ (∀ j, parseSyncConfig j = none →
        readSyncConfig (ReadState.parsed j) = Except.ok defaultConfig)
    ∧ (∀ j, lockShapeOk j = false →
        readSyncLock (ReadState.parsed j) = Except.ok emptyLockJson)
    ∧ isErr (readSyncConfig ReadState.unparseable) = true
    ∧ isErr (readSyncLock ReadState.unparseable) = true := by
  refine ⟨rfl, rfl, ?_, ?_, rfl, rfl⟩
  · intro j h
    simp [readSyncConfig, h]
  · intro j h
    simp [readSyncLock, h]

/-- Witness for the amended C4 at the concrete malformed value `5`. -/
theorem defensive_read_amended_witness :
    readSyncConfig (ReadState.parsed (Json.num 5)) = Except.ok defaultConfig
    ∧ readSyncLock (ReadState.parsed (Json.num 5)) = Except.ok emptyLockJson :=
  ⟨defensive_read_amended.2.2.1 (Json.num 5) rfl,
   defensive_read_amended.2.2.2.1 (Json.num 5) rfl⟩

/-! ## Claim C10: scanSummary first token recovers the risk level -/

/-- The `splitOnCharAux` on a separator-free block followed by the separator:
the block is emitted (after the pending accumulator) and splitting resumes. -/
theorem splitOnCharAux_sep_mem (sep : Char) (l₁ : List Char) :
    ∀ (cur : List Char) (l₂ : List Char), (∀ c ∈ l₁, c ≠ sep) →
    splitOnCharAux sep (l₁ ++ sep :: l₂) cur
      = String.mk (cur.reverse ++ l₁) :: splitOnCharAux sep l₂ [] := by
  induction l₁ with
  | nil =>
    intro cur l₂ _
    simp [splitOnCharAux]
  | cons c cs ih =>
    intro cur l₂ h
    have hc : c ≠ sep := h c (by simp)
    simp only [List.cons_append, splitOnCharAux, if_neg hc, List.append_eq]
    rw [ih (c :: cur) l₂ (fun d hd => h d (by simp [hd]))]
    simp [List.append_assoc]

/-- The pure roundtrip: lowercasing the first space-separated token of
`RISK.toUpperCase() + " — " + recommendation` gives back the risk string,
and `RISK_LEVEL_ORDER` maps it to the structured order. -/
theorem scanSummary_token_roundtrip (r : RiskLevel) (recommendation : String) :
    engineRiskToken (scanSummaryOf r recommendation) = riskString r
    ∧ riskLevelOrder (engineRiskToken (scanSummaryOf r recommendation))
        = some (riskOrder r) := by
  have key : engineRiskToken (scanSummaryOf r recommendation) = riskString r := by
    cases r
    case safe =>
      have hdata : (scanSummaryOf RiskLevel.safe recommendation).data
          = ['S', 'A', 'F', 'E'] ++ ' ' :: ('—' :: ' ' :: recommendation.data) := rfl
      unfold engineRiskToken firstSpaceToken splitOnChar
      rw [hdata, splitOnCharAux_sep_mem ' ' _ _ _ (by decide)]
      rfl
    case low =>
      have hdata : (scanSummaryOf RiskLevel.low recommendation).data
          = ['L', 'O', 'W'] ++ ' ' :: ('—' :: ' ' :: recommendation.data) := rfl
      unfold engineRiskToken firstSpaceToken splitOnChar
      rw [hdata, splitOnCharAux_sep_mem ' ' _ _ _ (by decide)]
      rfl
    case medium =>
      have hdata : (scanSummaryOf RiskLevel.medium recommendation).data
          = ['M', 'E', 'D', 'I', 'U', 'M'] ++ ' ' :: ('—' :: ' ' :: recommendation.data) := rfl
      unfold engineRiskToken firstSpaceToken splitOnChar
      rw [hdata, splitOnCharAux_sep_mem ' ' _ _ _ (by decide)]
      rfl
    case high =>
      have hdata : (scanSummaryOf RiskLevel.high recommendation).data
          = ['H', 'I', 'G', 'H'] ++ ' ' :: ('—' :: ' ' :: recommendation.data) := rfl
      unfold engineRiskToken firstSpaceToken splitOnChar
      rw [hdata, splitOnCharAux_sep_mem ' ' _ _ _ (by decide)]
      rfl
    case critical =>
      have hdata : (scanSummaryOf RiskLevel.critical recommendation).data
          = ['C', 'R', 'I', 'T', 'I', 'C', 'A', 'L'] ++ ' ' :: ('—' :: ' ' :: recommendation.data) := rfl
      unfold engineRiskToken firstSpaceToken splitOnChar
      rw [hdata, splitOnCharAux_sep_mem ' ' _ _ _ (by decide)]
      rfl
  refine ⟨key, ?_⟩
  rw [key]
  cases r <;> rfl

/-- C10: for every successful install result, the first whitespace-separated
token of `scanSummary`, lowercased, is exactly the scanner's risk level
string, and the sync engine's `RISK_LEVEL_ORDER` lookup on it recovers the
structured risk level. -/
theorem install_summary_token_recovers_risk (hash : String → String)
    (skillsDir : List String) (urlOk : Bool) (inferred : String)
    (nameArg : Option String) (force alreadyExists : Bool) (scan : ScanOutcome)
    (fetched : Option (List SkillFile)) (npmOk : Bool) (res : InstallResult)
    (h : (installSkill hash skillsDir urlOk inferred nameArg force alreadyExists
            scan fetched npmOk).1 = Except.ok res) :
    engineRiskToken res.scanSummary = riskString scan.riskLevel
    ∧ engineRiskNum res.scanSummary = riskOrder scan.riskLevel := by
  have hsum : res.scanSummary = scanSummaryOf scan.riskLevel scan.recommendation := by
    simp only [installSkill] at h
    split at h
    · exact absurd h (by simp)
    · split at h
      · exact absurd h (by simp)
      · split at h
        · exact absurd h (by simp)
        · split at h
          · exact absurd h (by simp)
          · split at h
            · exact absurd h (by simp)
            · split at h
              · exact absurd h (by simp)
              · split at h
                · exact absurd h (by simp)
                · simp only [] at h
                  injection h with h2
                  rw [← h2]
  rw [hsum]
  have hr := scanSummary_token_roundtrip scan.riskLevel scan.recommendation
  refine ⟨hr.1, ?_⟩
  unfold engineRiskNum
  rw [hr.2]
  rfl

/-- Witness for C10 at a concrete successful install. -/
theorem install_summary_token_recovers_risk_witness :
    engineRiskToken "SAFE — ok" = "safe" ∧ engineRiskNum "SAFE — ok" = 0 :=
  install_summary_token_recovers_risk (fun _ => "h") ["skills"] true "inf"
    (some "myskill") false false { riskLevel := RiskLevel.safe, recommendation := "ok", threats := [] }
    (some []) true
    { success := true, installPath := ["skills", "myskill"], filesCount := 0,
      contentHash := "h", scanSummary := "SAFE — ok", hasSkillMd := false,
      npmInstalled := false,
      warnings := ["No SKILL.md found. This skill may not be recognized by Claude Code."] }
    (by rfl)

/-! ## Path and name helper lemmas -/

/-- The `splitOnCharAux` on separator-free input yields a single chunk. -/
theorem splitOnCharAux_no_sep (sep : Char) (cs : List Char) :
    ∀ (cur : List Char), (∀ c ∈ cs, c ≠ sep) →
    splitOnCharAux sep cs cur = [String.mk (cur.reverse ++ cs)] := by
  induction cs with
  | nil =>
    intro cur _
    simp [splitOnCharAux]
  | cons c rest ih =>
    intro cur h
    have hc : c ≠ sep := h c (by simp)
    simp only [splitOnCharAux, if_neg hc]
    rw [ih (c :: cur) (fun d hd => h d (by simp [hd]))]
    simp [List.append_assoc]

/-- A valid skill name is nonempty. -/
theorem validateSkillName_ne_empty {s : String} (h : validateSkillName s = true) :
    s ≠ "" := by
  intro he
  subst he
  exact absurd h (by decide)

/-- Every character of a valid skill name is alphanumeric, `_` or `-`. -/
theorem validateSkillName_chars {s : String} (h : validateSkillName s = true) :
    ∀ c ∈ s.data, validNameChar c = true := by
  intro c hc
  unfold validateSkillName at h
  rcases hd : s.data with _ | ⟨c0, rest⟩
  · rw [hd] at hc
    simp at hc
  · rw [hd] at h hc
    simp only [Bool.and_eq_true] at h
    rcases List.mem_cons.mp hc with hceq | hc
    · subst hceq
      simp [validNameChar, h.1.1]
    · exact List.all_eq_true.mp h.2 c hc

/-- A valid skill name contains no slash, so splitting on "/" keeps it whole. -/
theorem splitOnChar_valid_name {s : String} (h : validateSkillName s = true) :
    splitOnChar '/' s = [s] := by
  unfold splitOnChar
  rw [splitOnCharAux_no_sep '/' s.data []]
  · rfl
  · intro c hc he
    have := validateSkillName_chars h c hc
    subst he
    exact absurd this (by decide)

/-- A valid skill name is a regular path segment. -/
theorem regSeg_valid_name {s : String} (h : validateSkillName s = true) :
    regSeg s = true := by
  have h1 : s ≠ "" := validateSkillName_ne_empty h
  have h2 : s ≠ "." := by
    intro he
    subst he
    exact absurd h (by decide)
  have h3 : s ≠ ".." := by
    intro he
    subst he
    exact absurd h (by decide)
  simp [regSeg, h1, h2, h3]

/-- Normalisation walks through a block of regular segments unchanged. -/
theorem normSegs_regular_append (l : List String) :
    ∀ (rest acc : List String), l.all regSeg = true →
    normSegs (l ++ rest) acc = normSegs rest (l.reverse ++ acc) := by
  induction l with
  | nil =>
    intro rest acc _
    simp
  | cons s tail ih =>
    intro rest acc h
    simp only [List.all_cons, Bool.and_eq_true] at h
    have hs := h.1
    simp only [regSeg, Bool.and_eq_true, bne_iff_ne, ne_eq] at hs
    rw [List.cons_append]
    simp only [normSegs]
    rw [if_neg (by simp [hs.1.1, hs.1.2]), if_neg hs.2]
    rw [ih rest (s :: acc) h.2]
    simp [List.append_assoc]

/-- A fully regular list normalises to itself. -/
theorem normSegs_regular (l acc : List String) (h : l.all regSeg = true) :
    normSegs l acc = acc.reverse ++ l := by
  have := normSegs_regular_append l [] acc h
  simpa [normSegs] using this

/-- The `segsProperPre` ignores a common block on both sides. -/
theorem segsProperPre_append_same (c : List String) (l₁ l₂ : List String) :
    segsProperPre (c ++ l₁) (c ++ l₂) = segsProperPre l₁ l₂ := by
  induction c with
  | nil => rfl
  | cons a as ih => simp [segsProperPre, ih]

/-- A list is a proper initial run of itself extended by anything nonempty. -/
theorem segsProperPre_self_append (base rest : List String) (h : rest ≠ []) :
    segsProperPre base (base ++ rest) = true := by
  have := segsProperPre_append_same base [] rest
  rw [List.append_nil] at this
  rw [this]
  cases rest with
  | nil => exact absurd rfl h
  | cons a as => rfl

/-- The `safeSkillPath` succeeds on every valid skill name over a regular
skills directory, resolving to the directory plus one segment. -/
theorem safeSkillPath_valid_name (skillsDir : List String) (name : String)
    (hbase : skillsDir.all regSeg = true) (hname : validateSkillName name = true) :
    safeSkillPath skillsDir name = Except.ok (skillsDir ++ [name]) := by
  unfold safeSkillPath resolveJoin
  rw [splitOnChar_valid_name hname]
  rw [normSegs_regular (skillsDir ++ [name]) []
    (by simp [List.all_append, hbase, regSeg_valid_name hname])]
  rw [normSegs_regular skillsDir [] hbase]
  simp only [List.reverse_nil, List.nil_append]
  rw [if_pos (segsProperPre_self_append skillsDir [name] (by simp))]

/-! ## Claims C2 and C3: the install risk gate -/

/-- The file-writing loop only ever appends to the warnings list. -/
theorem foldl_writeOneFile_warnings (installPath : List String) (files : List SkillFile) :
    ∀ (st : WriteState), ∃ l, (files.foldl (writeOneFile installPath) st).warnings
      = st.warnings ++ l := by
  induction files with
  | nil =>
    intro st
    exact ⟨[], by simp⟩
  | cons f rest ih =>
    intro st
    rw [List.foldl_cons]
    rcases ih (writeOneFile installPath st f) with ⟨l, hl⟩
    rw [hl]
    simp only [writeOneFile]
    split
    · exact ⟨l, rfl⟩
    · exact ⟨["Skipped \"" ++ f.name ++ "\": path traversal in filename"] ++ l, by simp⟩

/-- A successful `installSkill` can only come from a non-critical scan: the
critical gate sits before every success path and has no override. -/
theorem installSkill_ok_not_critical {hash : String → String} {skillsDir : List String}
    {urlOk : Bool} {inferred : String} {nameArg : Option String}
    {force alreadyExists : Bool} {scan : ScanOutcome}
    {fetched : Option (List SkillFile)} {npmOk : Bool} {res : InstallResult}
    (h : (installSkill hash skillsDir urlOk inferred nameArg force alreadyExists
        scan fetched npmOk).1 = Except.ok res) :
    scan.riskLevel ≠ RiskLevel.critical := by
  simp only [installSkill] at h
  split at h
  · exact absurd h (by simp)
  · split at h
    · exact absurd h (by simp)
    · split at h
      · exact absurd h (by simp)
      · split at h
        · exact absurd h (by simp)
        · split at h
          · exact absurd h (by simp)
          · rename_i hncrit
            intro hceq
            exact hncrit (by rw [hceq]; decide)

/-- C2: the risk gate of `installSkill` — a critical scan fails for every
force flag (and every other input); a medium or high scan fails exactly when
force is false; a low or safe scan proceeds (given the earlier gates pass
and the fetch succeeds), with a surfaced warning in the low case. -/
theorem install_risk_gate (hash : String → String) (skillsDir : List String)
    (name inferred : String) (scan : ScanOutcome) (files : List SkillFile)
    (npmOk force alreadyExists : Bool)
    (hbase : skillsDir.all regSeg = true) (hname : validateSkillName name = true) :
    (scan.riskLevel = RiskLevel.critical →
      ∀ (urlOk2 : Bool) (nameArg2 : Option String) (fetched2 : Option (List SkillFile)),
        isErr (installSkill hash skillsDir urlOk2 inferred nameArg2 force alreadyExists
          scan fetched2 npmOk).1 = true)
    ∧ ((scan.riskLevel = RiskLevel.medium ∨ scan.riskLevel = RiskLevel.high) →
      (isErr (installSkill hash skillsDir true inferred (some name) force alreadyExists
          scan (some files) npmOk).1 = true ↔ force = false))
    ∧ ((scan.riskLevel = RiskLevel.low ∨ scan.riskLevel = RiskLevel.safe) →
      (alreadyExists && !force) = false →
      isErr (installSkill hash skillsDir true inferred (some name) force alreadyExists
          scan (some files) npmOk).1 = false
      ∧ (scan.riskLevel = RiskLevel.low →
        ("Security scan: LOW risk — " ++ scan.recommendation) ∈
          resultWarnings (installSkill hash skillsDir true inferred (some name) force
            alreadyExists scan (some files) npmOk).1)) := by
  have hne : name ≠ "" := validateSkillName_ne_empty hname
  refine ⟨?_, ?_, ?_⟩
  · intro hcrit urlOk2 nameArg2 fetched2
    rcases hres : (installSkill hash skillsDir urlOk2 inferred nameArg2 force alreadyExists
        scan fetched2 npmOk).1 with e | res
    · rfl
    · exact absurd hcrit (installSkill_ok_not_critical hres)
  · intro hmh
    have hc : (scan.riskLevel == RiskLevel.critical) = false := by
      rcases hmh with h | h <;> rw [h] <;> decide
    have hmh' : (scan.riskLevel == RiskLevel.high || scan.riskLevel == RiskLevel.medium) = true := by
      rcases hmh with h | h <;> rw [h] <;> decide
    cases force
    · cases alreadyExists <;>
        simp [installSkill, hne, hname,
          safeSkillPath_valid_name skillsDir name hbase hname, hc, hmh', isErr]
    · simp [installSkill, hne, hname,
        safeSkillPath_valid_name skillsDir name hbase hname, hc, hmh', isErr]
  · intro hls hae
    have hc : (scan.riskLevel == RiskLevel.critical) = false := by
      rcases hls with h | h <;> rw [h] <;> decide
    have hmh : (scan.riskLevel == RiskLevel.high || scan.riskLevel == RiskLevel.medium) = false := by
      rcases hls with h | h <;> rw [h] <;> decide
    constructor
    · simp [installSkill, hne, hname,
        safeSkillPath_valid_name skillsDir name hbase hname, hc, hmh, hae, isErr]
    · intro hlow
      have hlb : (scan.riskLevel == RiskLevel.low) = true := by rw [hlow]; decide
      have hw := foldl_writeOneFile_warnings (skillsDir ++ [name]) files
        { ops := (if alreadyExists then [FsOp.rmDir (skillsDir ++ [name])] else []) ++
            [FsOp.mkDir (skillsDir ++ [name])],
          contents := [], warnings := ["Security scan: LOW risk — " ++ scan.recommendation],
          hasSkillMd := false }
      rcases hw with ⟨l, hl⟩
      simp only [installSkill, hname, if_neg hne,
        safeSkillPath_valid_name skillsDir name hbase hname, hc, hmh, hae, hlb]
      simp only [Bool.not_true, Bool.false_eq_true, if_false, Bool.and_false,
        Bool.false_and, Bool.or_false, if_true, Bool.not_eq_true]
      simp only [resultWarnings]
      split <;> split <;> simp_all [List.mem_append] <;>
        first
          | exact Or.inl (by split <;> exact List.mem_cons_self _ _)
          | (split <;> exact List.mem_cons_self _ _)

/-- Witness for C2 at concrete gate inputs. -/
theorem install_risk_gate_witness :
    isErr (installSkill (fun _ => "") ["skills"] true "inf" (some "pkg") true false
        { riskLevel := RiskLevel.critical, recommendation := "blocked", threats := [] }
        (some []) true).1 = true
    ∧ (isErr (installSkill (fun _ => "") ["skills"] true "inf" (some "pkg") false false
        { riskLevel := RiskLevel.medium, recommendation := "review", threats := [] }
        (some []) true).1 = true ↔ false = false)
    ∧ isErr (installSkill (fun _ => "") ["skills"] true "inf" (some "pkg") false false
        { riskLevel := RiskLevel.low, recommendation := "minor", threats := [] }
        (some []) true).1 = false := by
  have h := install_risk_gate (fun _ => "") ["skills"] "pkg" "inf"
    { riskLevel := RiskLevel.critical, recommendation := "blocked", threats := [] }
    [] true true false (by decide) (by decide)
  have h2 := install_risk_gate (fun _ => "") ["skills"] "pkg" "inf"
    { riskLevel := RiskLevel.medium, recommendation := "review", threats := [] }
    [] true false false (by decide) (by decide)
  have h3 := install_risk_gate (fun _ => "") ["skills"] "pkg" "inf"
    { riskLevel := RiskLevel.low, recommendation := "minor", threats := [] }
    [] true false false (by decide) (by decide)
  exact ⟨h.1 rfl true (some "pkg") (some []),
    h2.2.1 (Or.inl rfl),
    (h3.2.2 (Or.inl rfl) (by decide)).1⟩

/-- C3: with force = false on a not-yet-installed name, a critical scan makes
`installSkill` fail with the blocked-by-critical error and perform no
filesystem operation at all. -/
theorem critical_install_writes_nothing (hash : String → String)
    (skillsDir : List String) (name inferred : String) (scan : ScanOutcome)
    (fetched : Option (List SkillFile)) (npmOk : Bool)
    (hbase : skillsDir.all regSeg = true) (hname : validateSkillName name = true)
    (hcrit : scan.riskLevel = RiskLevel.critical) :
    installSkill hash skillsDir true inferred (some name) false false scan fetched npmOk
      = (Except.error InstallError.blockedCritical, []) := by
  have hne : name ≠ "" := validateSkillName_ne_empty hname
  have hcb : (scan.riskLevel == RiskLevel.critical) = true := by rw [hcrit]; decide
  simp [installSkill, hne, hname,
    safeSkillPath_valid_name skillsDir name hbase hname, hcb]

/-- Witness for C3 at a concrete critical scan. -/
theorem critical_install_writes_nothing_witness :
    installSkill (fun _ => "") ["skills"] true "inf" (some "pkg") false false
        { riskLevel := RiskLevel.critical, recommendation := "blocked", threats := [] }
        (some [{ name := "SKILL.md", content := "x" }]) true
      = (Except.error InstallError.blockedCritical, []) :=
  critical_install_writes_nothing (fun _ => "") ["skills"] "pkg" "inf"
    { riskLevel := RiskLevel.critical, recommendation := "blocked", threats := [] }
    (some [{ name := "SKILL.md", content := "x" }]) true
    (by decide) (by decide) rfl

/-! ## Claim C8: path-traversal names -/

/-- Splitting "../x" on "/" yields ".." followed by the split of x. -/
theorem splitOnChar_dotdot (x : String) :
    splitOnChar '/' ("../" ++ x) = ".." :: splitOnChar '/' x := rfl

/-- Splitting "../../x" on "/" yields two ".." followed by the split of x. -/
theorem splitOnChar_dotdot2 (x : String) :
    splitOnChar '/' ("../../" ++ x) = ".." :: ".." :: splitOnChar '/' x := rfl

/-- Any name starting with "../" fails `VALID_SKILL_NAME` (its first
character is '.', which is not alphanumeric). -/
theorem validateSkillName_dotdot (x : String) :
    validateSkillName ("../" ++ x) = false := rfl

/-- A name starting with "../" is nonempty. -/
theorem dotdot_ne_empty (x : String) : ("../" ++ x) ≠ "" := by
  intro h
  have h2 : ('.' :: '.' :: '/' :: x.data) = ([] : List Char) := by
    rw [show ('.' :: '.' :: '/' :: x.data) = ("../" ++ x).data from rfl, h]
  simp at h2

/-- C8 counterexample: on the traversal name "../etc/passwd", `installSkill`
and `uninstallSkill` do fail, but with the generic invalid-name rejection
(name validation runs before any path resolution), not with the
traversal-specific error the claim requires. -/
theorem traversal_generic_rejection_counterexample :
    (uninstallSkill ["home", "user", ".claude", "skills"] "../etc/passwd" true).1
        = Except.error (UninstallError.invalidName "../etc/passwd")
    ∧ (installSkill (fun _ => "") ["home", "user", ".claude", "skills"] true "inferred"
        (some "../etc/passwd") false false
        { riskLevel := RiskLevel.safe, recommendation := "ok", threats := [] }
        (some []) true).1
        = Except.error (InstallError.invalidName "../etc/passwd")
    ∧ UninstallError.invalidName "../etc/passwd"
        ≠ UninstallError.traversal "../etc/passwd"
    ∧ InstallError.invalidName "../etc/passwd"
        ≠ InstallError.traversal "../etc/passwd" := by
  refine ⟨rfl, rfl, by simp, by simp⟩

/-- C8 amended: `safeSkillPath` rejects "../x" and "../../x" names with the
traversal-specific error whenever they escape the skills directory, while
`installSkill` and `uninstallSkill` reject every "../"-prefixed name earlier,
with the generic invalid-name error and no filesystem effect. -/
theorem traversal_names_rejected :
    (∀ (b : List String) (bl : String) (x : String),
      (b ++ [bl]).all regSeg = true →
      (splitOnChar '/' x).all regSeg = true →
      (splitOnChar '/' x).head? ≠ some bl →
      safeSkillPath (b ++ [bl]) ("../" ++ x)
        = Except.error (PathError.traversal ("../" ++ x)))
    ∧ (∀ (b : List String) (b1 bl x : String),
      (b ++ [b1, bl]).all regSeg = true →
      (splitOnChar '/' x).all regSeg = true →
      (splitOnChar '/' x).head? ≠ some b1 →
      safeSkillPath (b ++ [b1, bl]) ("../../" ++ x)
        = Except.error (PathError.traversal ("../../" ++ x)))
    ∧ (∀ (hash : String → String) (skillsDir : List String) (inferred x : String)
        (force alreadyExists : Bool) (scan : ScanOutcome)
        (fetched : Option (List SkillFile)) (npmOk : Bool),
        installSkill hash skillsDir true inferred (some ("../" ++ x)) force alreadyExists
            scan fetched npmOk
          = (Except.error (InstallError.invalidName ("../" ++ x)), []))
    ∧ (∀ (skillsDir : List String) (x : String) (dirOnDisk : Bool),
        uninstallSkill skillsDir ("../" ++ x) dirOnDisk
          = (Except.error (UninstallError.invalidName ("../" ++ x)), [])) := by
  refine ⟨?_, ?_, ?_, ?_⟩
  · intro b bl x hb hx hhead
    have hres : resolveJoin (b ++ [bl]) ("../" ++ x) = b ++ splitOnChar '/' x := by
      unfold resolveJoin
      rw [splitOnChar_dotdot]
      rw [normSegs_regular_append (b ++ [bl]) (".." :: splitOnChar '/' x) [] hb]
      have hstep : normSegs (".." :: splitOnChar '/' x) ((b ++ [bl]).reverse ++ [])
          = normSegs (splitOnChar '/' x) b.reverse := by
        simp [normSegs, List.reverse_append]
      rw [hstep, normSegs_regular (splitOnChar '/' x) b.reverse hx]
      simp
    simp only [safeSkillPath]
    rw [hres, normSegs_regular (b ++ [bl]) [] hb]
    simp only [List.reverse_nil, List.nil_append]
    have hpp : segsProperPre (b ++ [bl]) (b ++ splitOnChar '/' x) = false := by
      rw [segsProperPre_append_same b [bl] (splitOnChar '/' x)]
      rcases hsp : splitOnChar '/' x with _ | ⟨x0, rest⟩
      · rfl
      · rw [hsp] at hhead
        have : bl ≠ x0 := by
          intro he
          exact hhead (by simp [he])
        simp [segsProperPre, this]
    simp [hpp]
  · intro b b1 bl x hb hx hhead
    have hres : resolveJoin (b ++ [b1, bl]) ("../../" ++ x) = b ++ splitOnChar '/' x := by
      unfold resolveJoin
      rw [splitOnChar_dotdot2]
      rw [normSegs_regular_append (b ++ [b1, bl]) (".." :: ".." :: splitOnChar '/' x) [] hb]
      have hstep : normSegs (".." :: ".." :: splitOnChar '/' x) ((b ++ [b1, bl]).reverse ++ [])
          = normSegs (splitOnChar '/' x) b.reverse := by
        simp [normSegs, List.reverse_append]
      rw [hstep, normSegs_regular (splitOnChar '/' x) b.reverse hx]
      simp
    simp only [safeSkillPath]
    rw [hres, normSegs_regular (b ++ [b1, bl]) [] hb]
    simp only [List.reverse_nil, List.nil_append]
    have hpp : segsProperPre (b ++ [b1, bl]) (b ++ splitOnChar '/' x) = false := by
      rw [segsProperPre_append_same b [b1, bl] (splitOnChar '/' x)]
      rcases hsp : splitOnChar '/' x with _ | ⟨x0, rest⟩
      · rfl
      · rw [hsp] at hhead
        have : b1 ≠ x0 := by
          intro he
          exact hhead (by simp [he])
        simp [segsProperPre, this]
    simp [hpp]
  · intro hash skillsDir inferred x force alreadyExists scan fetched npmOk
    simp [installSkill, dotdot_ne_empty x, validateSkillName_dotdot x]
  · intro skillsDir x dirOnDisk
    simp [uninstallSkill, validateSkillName_dotdot x]

/-- Witness for the amended C8 at "../etc/passwd" and "../../etc/passwd". -/
theorem traversal_names_rejected_witness :
    safeSkillPath (["home", "user", ".claude"] ++ ["skills"]) ("../" ++ "etc/passwd")
        = Except.error (PathError.traversal ("../" ++ "etc/passwd"))
    ∧ safeSkillPath (["home", "user"] ++ [".claude", "skills"]) ("../../" ++ "etc/passwd")
        = Except.error (PathError.traversal ("../../" ++ "etc/passwd"))
    ∧ installSkill (fun _ => "") ["home", "user", ".claude", "skills"] true "inf"
        (some ("../" ++ "etc/passwd")) false false
        { riskLevel := RiskLevel.safe, recommendation := "ok", threats := [] } (some []) true
        = (Except.error (InstallError.invalidName ("../" ++ "etc/passwd")), [])
    ∧ uninstallSkill ["home", "user", ".claude", "skills"] ("../" ++ "etc/passwd") true
        = (Except.error (UninstallError.invalidName ("../" ++ "etc/passwd")), []) :=
  ⟨traversal_names_rejected.1 ["home", "user", ".claude"] "skills" "etc/passwd"
      (by decide) (by decide) (by decide),
   traversal_names_rejected.2.1 ["home", "user"] ".claude" "skills" "etc/passwd"
      (by decide) (by decide) (by decide),
   traversal_names_rejected.2.2.1 (fun _ => "") ["home", "user", ".claude", "skills"] "inf"
      "etc/passwd" false false
      { riskLevel := RiskLevel.safe, recommendation := "ok", threats := [] } (some []) true,
   traversal_names_rejected.2.2.2 ["home", "user", ".claude", "skills"] "etc/passwd" true⟩

/-! ## Claims C6, C7, C9: computeSyncDiff -/

/-- The `toInstall` contribution of one discovered entry. -/
def installDelta (lock : SyncLockFile) (e : String × DiscoveredSkill) :
    List SyncDiffItem :=
  match lockFindByUrl lock e.1 with
  | none => [{ name := e.2.inferredName, githubUrl := e.1,
               subIds := e.2.subIds, updatedAt := e.2.updatedAt }]
  | some _ => []

/-- The `toUpdate` contribution of one discovered entry. -/
def updateDelta (registry : String → Option String) (lock : SyncLockFile)
    (config : SyncConfig) (e : String × DiscoveredSkill) : List SyncDiffItem :=
  match lockFindByUrl lock e.1 with
  | none => []
  | some locked =>
    if locked.upstreamUpdatedAt ≠ some e.2.updatedAt then
      match registry locked.name with
      | some localHash =>
        if localHash ≠ locked.installedHash then
          match config.conflictPolicy with
          | .overwrite => [{ name := locked.name, githubUrl := e.1,
                             subIds := e.2.subIds, updatedAt := e.2.updatedAt }]
          | _ => []
        else [{ name := locked.name, githubUrl := e.1,
                subIds := e.2.subIds, updatedAt := e.2.updatedAt }]
      | none => [{ name := locked.name, githubUrl := e.1,
                   subIds := e.2.subIds, updatedAt := e.2.updatedAt }]
    else []

/-- The `conflicts` contribution of one discovered entry. -/
def conflictDelta (registry : String → Option String) (lock : SyncLockFile)
    (config : SyncConfig) (e : String × DiscoveredSkill) : List SyncConflict :=
  match lockFindByUrl lock e.1 with
  | none => []
  | some locked =>
    if locked.upstreamUpdatedAt ≠ some e.2.updatedAt then
      match registry locked.name with
      | some localHash =>
        if localHash ≠ locked.installedHash then
          match config.conflictPolicy with
          | .skip => [{ name := locked.name, githubUrl := e.1,
                        reason := "Locally modified — skipped (conflict policy: skip)" }]
          | .overwrite => []
          | .unmanage => [{ name := locked.name, githubUrl := e.1,
                            reason := "Locally modified — unmanaged (conflict policy: unmanage)" }]
        else []
      | none => []
    else []

/-- Step decomposition of `processDiscovered` on `toInstall`. -/
theorem processDiscovered_toInstall (r : String → Option String) (lock : SyncLockFile)
    (c : SyncConfig) (acc : SyncDiffResult) (e : String × DiscoveredSkill) :
    (processDiscovered r lock c acc e).toInstall = acc.toInstall ++ installDelta lock e := by
  unfold processDiscovered installDelta
  rcases h1 : lockFindByUrl lock e.1 with _ | locked
  · simp [h1]
  · by_cases h2 : locked.upstreamUpdatedAt = some e.2.updatedAt
    · simp [h1, h2]
    · rcases h3 : r locked.name with _ | localHash
      · simp [h1, h2, h3]
      · by_cases h4 : localHash = locked.installedHash
        · simp [h1, h2, h3, h4]
        · rcases h5 : c.conflictPolicy
          · simp [h1, h2, h3, h4, h5]
          · simp [h1, h2, h3, h4, h5]
          · simp [h1, h2, h3, h4, h5]

/-- Step decomposition of `processDiscovered` on `toUpdate`. -/
theorem processDiscovered_toUpdate (r : String → Option String) (lock : SyncLockFile)
    (c : SyncConfig) (acc : SyncDiffResult) (e : String × DiscoveredSkill) :
    (processDiscovered r lock c acc e).toUpdate = acc.toUpdate ++ updateDelta r lock c e := by
  unfold processDiscovered updateDelta
  rcases h1 : lockFindByUrl lock e.1 with _ | locked
  · simp [h1]
  · by_cases h2 : locked.upstreamUpdatedAt = some e.2.updatedAt
    · simp [h1, h2]
    · rcases h3 : r locked.name with _ | localHash
      · simp [h1, h2, h3]
      · by_cases h4 : localHash = locked.installedHash
        · simp [h1, h2, h3, h4]
        · rcases h5 : c.conflictPolicy
          · simp [h1, h2, h3, h4, h5]
          · simp [h1, h2, h3, h4, h5]
          · simp [h1, h2, h3, h4, h5]

/-- Step decomposition of `processDiscovered` on `conflicts`. -/
theorem processDiscovered_conflicts (r : String → Option String) (lock : SyncLockFile)
    (c : SyncConfig) (acc : SyncDiffResult) (e : String × DiscoveredSkill) :
    (processDiscovered r lock c acc e).conflicts = acc.conflicts ++ conflictDelta r lock c e := by
  unfold processDiscovered conflictDelta
  rcases h1 : lockFindByUrl lock e.1 with _ | locked
  · simp [h1]
  · by_cases h2 : locked.upstreamUpdatedAt = some e.2.updatedAt
    · simp [h1, h2]
    · rcases h3 : r locked.name with _ | localHash
      · simp [h1, h2, h3]
      · by_cases h4 : localHash = locked.installedHash
        · simp [h1, h2, h3, h4]
        · rcases h5 : c.conflictPolicy
          · simp [h1, h2, h3, h4, h5]
          · simp [h1, h2, h3, h4, h5]
          · simp [h1, h2, h3, h4, h5]

/-- The `processDiscovered` never touches `toRemove`. -/
theorem processDiscovered_toRemove (r : String → Option String) (lock : SyncLockFile)
    (c : SyncConfig) (acc : SyncDiffResult) (e : String × DiscoveredSkill) :
    (processDiscovered r lock c acc e).toRemove = acc.toRemove := by
  unfold processDiscovered
  rcases h1 : lockFindByUrl lock e.1 with _ | locked
  · simp [h1]
  · by_cases h2 : locked.upstreamUpdatedAt = some e.2.updatedAt
    · simp [h1, h2]
    · rcases h3 : r locked.name with _ | localHash
      · simp [h1, h2, h3]
      · by_cases h4 : localHash = locked.installedHash
        · simp [h1, h2, h3, h4]
        · rcases h5 : c.conflictPolicy
          · simp [h1, h2, h3, h4, h5]
          · simp [h1, h2, h3, h4, h5]
          · simp [h1, h2, h3, h4, h5]

/-- Fold decomposition on `toInstall`. -/
theorem foldl_processDiscovered_toInstall (r : String → Option String)
    (lock : SyncLockFile) (c : SyncConfig) (l : List (String × DiscoveredSkill)) :
    ∀ acc : SyncDiffResult,
    (l.foldl (processDiscovered r lock c) acc).toInstall
      = acc.toInstall ++ l.flatMap (installDelta lock) := by
  induction l with
  | nil => intro acc; simp
  | cons e rest ih =>
    intro acc
    rw [List.foldl_cons, ih, processDiscovered_toInstall]
    simp

/-- Fold decomposition on `toUpdate`. -/
theorem foldl_processDiscovered_toUpdate (r : String → Option String)
    (lock : SyncLockFile) (c : SyncConfig) (l : List (String × DiscoveredSkill)) :
    ∀ acc : SyncDiffResult,
    (l.foldl (processDiscovered r lock c) acc).toUpdate
      = acc.toUpdate ++ l.flatMap (updateDelta r lock c) := by
  induction l with
  | nil => intro acc; simp
  | cons e rest ih =>
    intro acc
    rw [List.foldl_cons, ih, processDiscovered_toUpdate]
    simp

/-- Fold decomposition on `conflicts`. -/
theorem foldl_processDiscovered_conflicts (r : String → Option String)
    (lock : SyncLockFile) (c : SyncConfig) (l : List (String × DiscoveredSkill)) :
    ∀ acc : SyncDiffResult,
    (l.foldl (processDiscovered r lock c) acc).conflicts
      = acc.conflicts ++ l.flatMap (conflictDelta r lock c) := by
  induction l with
  | nil => intro acc; simp
  | cons e rest ih =>
    intro acc
    rw [List.foldl_cons, ih, processDiscovered_conflicts]
    simp

/-- Fold preservation of `toRemove`. -/
theorem foldl_processDiscovered_toRemove (r : String → Option String)
    (lock : SyncLockFile) (c : SyncConfig) (l : List (String × DiscoveredSkill)) :
    ∀ acc : SyncDiffResult,
    (l.foldl (processDiscovered r lock c) acc).toRemove = acc.toRemove := by
  induction l with
  | nil => intro acc; simp
  | cons e rest ih =>
    intro acc
    rw [List.foldl_cons, ih, processDiscovered_toRemove]

/-- The `toUpdate` component of the diff is the concatenation of the
per-entry update contributions. -/
theorem computeSyncDiff_toUpdate (r : String → Option String)
    (discovered : List (String × DiscoveredSkill)) (lock : SyncLockFile)
    (config : SyncConfig) :
    (computeSyncDiff r discovered lock config).toUpdate
      = discovered.flatMap (updateDelta r lock config) := by
  unfold computeSyncDiff
  split
  · simp [foldl_processDiscovered_toUpdate]
  · simp [foldl_processDiscovered_toUpdate]

/-- The `conflicts` component of the diff is the concatenation of the
per-entry conflict contributions. -/
theorem computeSyncDiff_conflicts (r : String → Option String)
    (discovered : List (String × DiscoveredSkill)) (lock : SyncLockFile)
    (config : SyncConfig) :
    (computeSyncDiff r discovered lock config).conflicts
      = discovered.flatMap (conflictDelta r lock config) := by
  unfold computeSyncDiff
  split
  · simp [foldl_processDiscovered_conflicts]
  · simp [foldl_processDiscovered_conflicts]

/-- The `toRemove` component: the lock entries absent from the discovered
set when `autoRemove` is on, nothing otherwise. -/
theorem computeSyncDiff_toRemove (r : String → Option String)
    (discovered : List (String × DiscoveredSkill)) (lock : SyncLockFile)
    (config : SyncConfig) :
    (computeSyncDiff r discovered lock config).toRemove
      = if config.autoRemove then
          (lock.skills.filter
            (fun nl => !(discovered.any (fun d => d.1 == nl.2.githubUrl)))).map
            (fun nl => { name := nl.1, githubUrl := nl.2.githubUrl })
        else [] := by
  unfold computeSyncDiff
  split
  · simp
  · simp [foldl_processDiscovered_toRemove]

/-- Every update item carries the URL of the discovered entry it came from. -/
theorem updateDelta_githubUrl (r : String → Option String) (lock : SyncLockFile)
    (config : SyncConfig) (e : String × DiscoveredSkill) :
    ∀ item ∈ updateDelta r lock config e, item.githubUrl = e.1 := by
  intro item hmem
  unfold updateDelta at hmem
  repeat' split at hmem
  all_goals simp_all

/-- Every conflict entry carries the URL of the discovered entry it came from. -/
theorem conflictDelta_githubUrl (r : String → Option String) (lock : SyncLockFile)
    (config : SyncConfig) (e : String × DiscoveredSkill) :
    ∀ cfl ∈ conflictDelta r lock config e, cfl.githubUrl = e.1 := by
  intro cfl hmem
  unfold conflictDelta at hmem
  repeat' split at hmem
  all_goals simp_all

/-- In an association list with pairwise-distinct keys, a key determines its
value. -/
theorem assoc_nodup_unique {β : Type} {l : List (String × β)}
    (h : (l.map Prod.fst).Nodup) {k : String} {a b : β}
    (ha : (k, a) ∈ l) (hb : (k, b) ∈ l) : a = b := by
  induction l with
  | nil => simp at ha
  | cons e rest ih =>
    simp only [List.map_cons, List.nodup_cons] at h
    rcases List.mem_cons.mp ha with rfl | ha2
    · rcases List.mem_cons.mp hb with hbe | hb2
      · exact congrArg Prod.snd hbe.symm
      · exact absurd (List.mem_map_of_mem Prod.fst hb2) (by simpa using h.1)
    · rcases List.mem_cons.mp hb with rfl | hb2
      · exact absurd (List.mem_map_of_mem Prod.fst ha2) (by simpa using h.1)
      · exact ih h.2 ha2 hb2

/-- C7: the `toRemove` list is populated exactly when `autoRemove` is on —
with it off, `toRemove` is empty for every lock and discovered set; with it
on, a removal is emitted exactly for the locked packages whose source URL is
absent from the discovered set; and `toRemove` is independent of the
registry and the conflict policy. -/
theorem auto_remove_gate (registry : String → Option String)
    (discovered : List (String × DiscoveredSkill)) (lock : SyncLockFile)
    (config : SyncConfig) :
    (config.autoRemove = false →
      (computeSyncDiff registry discovered lock config).toRemove = [])
    ∧ (config.autoRemove = true →
      ∀ (name url : String),
        (({ name := name, githubUrl := url } : SyncRemoval)
            ∈ (computeSyncDiff registry discovered lock config).toRemove
          ↔ ∃ l : LockedSkill, (name, l) ∈ lock.skills ∧ l.githubUrl = url
              ∧ ∀ e ∈ discovered, e.1 ≠ url))
    ∧ (∀ (registry2 : String → Option String) (p2 : ConflictPolicy),
        (computeSyncDiff registry discovered lock config).toRemove
          = (computeSyncDiff registry2 discovered lock
              { config with conflictPolicy := p2 }).toRemove) := by
  refine ⟨?_, ?_, ?_⟩
  · intro h
    rw [computeSyncDiff_toRemove]
    simp [h]
  · intro h name url
    rw [computeSyncDiff_toRemove]
    simp only [h, if_true]
    constructor
    · intro hmem
      rcases List.mem_map.mp hmem with ⟨nl, hnl, heq⟩
      rcases List.mem_filter.mp hnl with ⟨hmem2, hcond⟩
      have hn : nl.1 = name := congrArg SyncRemoval.name heq
      have hu : nl.2.githubUrl = url := congrArg SyncRemoval.githubUrl heq
      refine ⟨nl.2, ?_, hu, ?_⟩
      · rw [← hn]
        simpa using hmem2
      · intro e he hne
        rw [Bool.not_eq_eq_eq_not, Bool.not_true, List.any_eq_false] at hcond
        exact hcond e he (by simp [hne, hu])
    · rintro ⟨l, hmem2, hurl, hnone⟩
      apply List.mem_map.mpr
      refine ⟨(name, l), List.mem_filter.mpr ⟨hmem2, ?_⟩, by simp [hurl]⟩
      rw [Bool.not_eq_eq_eq_not, Bool.not_true, List.any_eq_false]
      intro e he
      simp [hurl, hnone e he]
  · intro registry2 p2
    rw [computeSyncDiff_toRemove, computeSyncDiff_toRemove]

/-- A locked skill used by the sync-diff witnesses. -/
def lockedSkillW : LockedSkill :=
  { name := "skill-old"
    githubUrl := "url-old"
    installedHash := "h1"
    upstreamHash := "h1"
    subscriptionIds := ["sub-1"]
    lastSynced := "t0"
    installedAt := "t0"
    riskLevel := "safe"
    filesCount := 1
    hasSkillMd := true
    upstreamUpdatedAt := some "1" }

/-- A one-entry lock used by the sync-diff witnesses. -/
def lockW : SyncLockFile :=
  { skills := [("skill-old", lockedSkillW)], lastSyncRun := none, syncCount := 0 }

/-- A subscription-free config used by the sync-diff witnesses. -/
def configW (p : ConflictPolicy) (autoRemove : Bool) : SyncConfig :=
  { subscriptions := []
    syncIntervalHours := 0
    maxRiskLevel := "low"
    conflictPolicy := p
    autoRemove := autoRemove
    enabled := true }

/-- Witness for C7 at a concrete lock with nothing discovered. -/
theorem auto_remove_gate_witness :
    (computeSyncDiff (fun _ => none) [] lockW (configW ConflictPolicy.skip false)).toRemove = []
    ∧ ({ name := "skill-old", githubUrl := "url-old" } : SyncRemoval)
        ∈ (computeSyncDiff (fun _ => none) [] lockW (configW ConflictPolicy.skip true)).toRemove := by
  constructor
  · exact (auto_remove_gate (fun _ => none) [] lockW (configW ConflictPolicy.skip false)).1 rfl
  · exact ((auto_remove_gate (fun _ => none) [] lockW (configW ConflictPolicy.skip true)).2.1
      rfl "skill-old" "url-old").mpr
      ⟨lockedSkillW, by simp [lockW], rfl, by simp⟩

/-- Action-list decomposition of the phase-3 fold. -/
theorem foldl_conflictStep_actions (policy : ConflictPolicy) (d : Bool)
    (cs : List SyncConflict) :
    ∀ init : List SyncAction × SyncLockFile,
    (cs.foldl (conflictStep policy d) init).1
      = init.1 ++ cs.map (fun c =>
          if policy == ConflictPolicy.unmanage then
            { type := "unmanage", skillName := c.name,
              githubUrl := c.githubUrl, reason := c.reason }
          else
            { type := "skip-conflict", skillName := c.name,
              githubUrl := c.githubUrl, reason := c.reason }) := by
  induction cs with
  | nil => intro init; simp
  | cons c rest ih =>
    intro init
    rw [List.foldl_cons, ih]
    unfold conflictStep
    split <;> simp_all

/-- The phase-3 fold only ever narrows the set of locked skills. -/
theorem foldl_conflictStep_skills_sub (policy : ConflictPolicy) (d : Bool)
    (cs : List SyncConflict) :
    ∀ (init : List SyncAction × SyncLockFile) (nl : String × LockedSkill),
    nl ∈ (cs.foldl (conflictStep policy d) init).2.skills → nl ∈ init.2.skills := by
  induction cs with
  | nil => intro init nl h; simpa using h
  | cons c rest ih =>
    intro init nl h
    have h2 := ih (conflictStep policy d init c) nl h
    unfold conflictStep at h2
    split at h2
    · split at h2
      · exact h2
      · have h3 : nl ∈ init.2.skills ∧ ¬nl.1 = c.name := by simpa using h2
        exact h3.1
    · exact h2

/-- Under the unmanage policy in a real run, every conflict's name is dropped
from the lock by the phase-3 fold. -/
theorem foldl_conflictStep_drops (cs : List SyncConflict) :
    ∀ (init : List SyncAction × SyncLockFile) (c : SyncConflict), c ∈ cs →
    ∀ nl ∈ (cs.foldl (conflictStep ConflictPolicy.unmanage false) init).2.skills,
      nl.1 ≠ c.name := by
  induction cs with
  | nil => intro init c hc; simp at hc
  | cons c0 rest ih =>
    intro init c hc nl hnl
    rcases List.mem_cons.mp hc with rfl | hc2
    · have hsub := foldl_conflictStep_skills_sub ConflictPolicy.unmanage false rest
        (conflictStep ConflictPolicy.unmanage false init c) nl (by simpa using hnl)
      have hb : (ConflictPolicy.unmanage == ConflictPolicy.unmanage) = true := by decide
      have h3 : nl ∈ init.2.skills ∧ ¬nl.1 = c.name := by
        simp only [conflictStep] at hsub
        simpa [hb] using hsub
      exact h3.2
    · exact ih (conflictStep ConflictPolicy.unmanage false init c0) c hc2 nl (by simpa using hnl)

/-- The reason string recorded for a skipped conflict. -/
def skipReason : String := "Locally modified — skipped (conflict policy: skip)"

/-- The reason string recorded for an unmanaged conflict. -/
def unmanageReason : String := "Locally modified — unmanaged (conflict policy: unmanage)"

/-- C6: for a discovered URL that is locked with a changed upstream marker
and whose registered local hash drifted from the locked hash — under `skip`
a conflict is recorded and the URL reaches no update item; under `overwrite`
the URL becomes an update item and no conflict carries it; under `unmanage`
a conflict is recorded whose phase-3 processing records an unmanage action
(never a remove) and drops the package from the lock. -/
theorem conflict_policy_cases (registry : String → Option String)
    (discovered : List (String × DiscoveredSkill)) (lock : SyncLockFile)
    (config : SyncConfig) (githubUrl : String) (disc : DiscoveredSkill)
    (locked : LockedSkill) (localHash : String)
    (hnd : (discovered.map Prod.fst).Nodup)
    (hmem : (githubUrl, disc) ∈ discovered)
    (hfind : lockFindByUrl lock githubUrl = some locked)
    (hch : locked.upstreamUpdatedAt ≠ some disc.updatedAt)
    (hreg : registry locked.name = some localHash)
    (hdrift : localHash ≠ locked.installedHash) :
    (({ name := locked.name, githubUrl := githubUrl,
        reason := "Locally modified — skipped (conflict policy: skip)" } : SyncConflict)
        ∈ (computeSyncDiff registry discovered lock
            { config with conflictPolicy := ConflictPolicy.skip }).conflicts
      ∧ ∀ item ∈ (computeSyncDiff registry discovered lock
            { config with conflictPolicy := ConflictPolicy.skip }).toUpdate,
          item.githubUrl ≠ githubUrl)
    ∧ (({ name := locked.name, githubUrl := githubUrl, subIds := disc.subIds,
          updatedAt := disc.updatedAt } : SyncDiffItem)
        ∈ (computeSyncDiff registry discovered lock
            { config with conflictPolicy := ConflictPolicy.overwrite }).toUpdate
      ∧ ∀ cfl ∈ (computeSyncDiff registry discovered lock
            { config with conflictPolicy := ConflictPolicy.overwrite }).conflicts,
          cfl.githubUrl ≠ githubUrl)
    ∧ (({ name := locked.name, githubUrl := githubUrl,
          reason := "Locally modified — unmanaged (conflict policy: unmanage)" } : SyncConflict)
        ∈ (computeSyncDiff registry discovered lock
            { config with conflictPolicy := ConflictPolicy.unmanage }).conflicts
      ∧ (({ type := "unmanage", skillName := locked.name, githubUrl := githubUrl,
            reason := "Locally modified — unmanaged (conflict policy: unmanage)" } : SyncAction)
          ∈ (processConflicts (computeSyncDiff registry discovered lock
              { config with conflictPolicy := ConflictPolicy.unmanage }).conflicts
              ConflictPolicy.unmanage false lock).1)
      ∧ (∀ a ∈ (processConflicts (computeSyncDiff registry discovered lock
              { config with conflictPolicy := ConflictPolicy.unmanage }).conflicts
              ConflictPolicy.unmanage false lock).1, a.type = "unmanage")
      ∧ (∀ nl ∈ (processConflicts (computeSyncDiff registry discovered lock
              { config with conflictPolicy := ConflictPolicy.unmanage }).conflicts
              ConflictPolicy.unmanage false lock).2.skills, nl.1 ≠ locked.name)) := by
  have huniq : ∀ e ∈ discovered, e.1 = githubUrl → e.2 = disc := by
    intro e he heq
    have he2 : (githubUrl, e.2) ∈ discovered := by
      rw [← heq]
      simpa using he
    exact assoc_nodup_unique hnd he2 hmem
  refine ⟨⟨?_, ?_⟩, ⟨?_, ?_⟩, ?_, ?_, ?_, ?_⟩
  · rw [computeSyncDiff_conflicts]
    apply List.mem_flatMap.mpr
    refine ⟨(githubUrl, disc), hmem, ?_⟩
    simp [conflictDelta, hfind, hch, hreg, hdrift]
  · intro item hitem hurl
    rw [computeSyncDiff_toUpdate] at hitem
    rcases List.mem_flatMap.mp hitem with ⟨e, he, hin⟩
    have heq : item.githubUrl = e.1 := updateDelta_githubUrl _ _ _ e item hin
    have he2 : e.2 = disc := huniq e he (by rw [← heq, hurl])
    have he1 : e.1 = githubUrl := by rw [← heq, hurl]
    rw [show e = (githubUrl, disc) from Prod.ext he1 he2] at hin
    simp [updateDelta, hfind, hch, hreg, hdrift] at hin
  · rw [computeSyncDiff_toUpdate]
    apply List.mem_flatMap.mpr
    refine ⟨(githubUrl, disc), hmem, ?_⟩
    simp [updateDelta, hfind, hch, hreg, hdrift]
  · intro cfl hcfl hurl
    rw [computeSyncDiff_conflicts] at hcfl
    rcases List.mem_flatMap.mp hcfl with ⟨e, he, hin⟩
    have heq : cfl.githubUrl = e.1 := conflictDelta_githubUrl _ _ _ e cfl hin
    have he2 : e.2 = disc := huniq e he (by rw [← heq, hurl])
    have he1 : e.1 = githubUrl := by rw [← heq, hurl]
    rw [show e = (githubUrl, disc) from Prod.ext he1 he2] at hin
    simp [conflictDelta, hfind, hch, hreg, hdrift] at hin
  · rw [computeSyncDiff_conflicts]
    apply List.mem_flatMap.mpr
    refine ⟨(githubUrl, disc), hmem, ?_⟩
    simp [conflictDelta, hfind, hch, hreg, hdrift]
  · unfold processConflicts
    rw [foldl_conflictStep_actions]
    simp only [List.nil_append]
    apply List.mem_map.mpr
    refine ⟨({ name := locked.name, githubUrl := githubUrl, reason := unmanageReason } : SyncConflict), ?_, ?_⟩
    · rw [computeSyncDiff_conflicts]
      apply List.mem_flatMap.mpr
      refine ⟨(githubUrl, disc), hmem, ?_⟩
      simp [conflictDelta, hfind, hch, hreg, hdrift, unmanageReason]
    · have hb : (ConflictPolicy.unmanage == ConflictPolicy.unmanage) = true := by decide
      simp [hb, unmanageReason]
  · intro a ha
    unfold processConflicts at ha
    rw [foldl_conflictStep_actions] at ha
    simp only [List.nil_append] at ha
    rcases List.mem_map.mp ha with ⟨c, _, heq⟩
    rw [← heq]
    have hb : (ConflictPolicy.unmanage == ConflictPolicy.unmanage) = true := by decide
    simp [hb]
  · intro nl hnl
    apply foldl_conflictStep_drops _ ([], lock)
      ({ name := locked.name, githubUrl := githubUrl, reason := unmanageReason } : SyncConflict)
      ?_ nl hnl
    rw [computeSyncDiff_conflicts]
    apply List.mem_flatMap.mpr
    refine ⟨(githubUrl, disc), hmem, ?_⟩
    simp [conflictDelta, hfind, hch, hreg, hdrift, unmanageReason]

/-- A discovered skill with a changed upstream marker, for the witnesses. -/
def discW : DiscoveredSkill :=
  { updatedAt := "2", subIds := ["sub-1"], inferredName := "skill-old" }

/-- A registry that reports a drifted hash for the locked skill. -/
def registryW : String → Option String :=
  fun n => if n = "skill-old" then some "h2" else none

/-- Witness for C6 at a concrete drifted lock entry. -/
theorem conflict_policy_cases_witness :
    ({ name := "skill-old", githubUrl := "url-old", reason := skipReason } : SyncConflict)
        ∈ (computeSyncDiff registryW [("url-old", discW)] lockW
            (configW ConflictPolicy.skip false)).conflicts
    ∧ ({ name := "skill-old", githubUrl := "url-old", subIds := ["sub-1"],
         updatedAt := "2" } : SyncDiffItem)
        ∈ (computeSyncDiff registryW [("url-old", discW)] lockW
            (configW ConflictPolicy.overwrite false)).toUpdate := by
  have h1 := conflict_policy_cases registryW [("url-old", discW)] lockW
    (configW ConflictPolicy.skip false) "url-old" discW lockedSkillW "h2"
    (by decide) (by simp) rfl (by decide) rfl (by decide)
  have h2 := conflict_policy_cases registryW [("url-old", discW)] lockW
    (configW ConflictPolicy.overwrite false) "url-old" discW lockedSkillW "h2"
    (by decide) (by simp) rfl (by decide) rfl (by decide)
  exact ⟨h1.1.1, h2.2.1.1⟩

/-- C9: a locked, changed entry whose name is absent from the registry is
emitted as an update candidate with no conflict recorded, under every
conflict policy; and the diff genuinely depends on the registry argument. -/
theorem registry_absence_means_update (registry : String → Option String)
    (discovered : List (String × DiscoveredSkill)) (lock : SyncLockFile)
    (config : SyncConfig) (githubUrl : String) (disc : DiscoveredSkill)
    (locked : LockedSkill)
    (hnd : (discovered.map Prod.fst).Nodup)
    (hmem : (githubUrl, disc) ∈ discovered)
    (hfind : lockFindByUrl lock githubUrl = some locked)
    (hch : locked.upstreamUpdatedAt ≠ some disc.updatedAt)
    (hreg : registry locked.name = none) :
    (({ name := locked.name, githubUrl := githubUrl, subIds := disc.subIds,
        updatedAt := disc.updatedAt } : SyncDiffItem)
        ∈ (computeSyncDiff registry discovered lock config).toUpdate
      ∧ ∀ cfl ∈ (computeSyncDiff registry discovered lock config).conflicts,
          cfl.githubUrl ≠ githubUrl)
    ∧ ∃ (r1 r2 : String → Option String) (d : List (String × DiscoveredSkill))
        (lk : SyncLockFile) (cf : SyncConfig),
        computeSyncDiff r1 d lk cf ≠ computeSyncDiff r2 d lk cf := by
  have huniq : ∀ e ∈ discovered, e.1 = githubUrl → e.2 = disc := by
    intro e he heq
    have he2 : (githubUrl, e.2) ∈ discovered := by
      rw [← heq]
      simpa using he
    exact assoc_nodup_unique hnd he2 hmem
  refine ⟨⟨?_, ?_⟩, ?_⟩
  · rw [computeSyncDiff_toUpdate]
    apply List.mem_flatMap.mpr
    exact ⟨(githubUrl, disc), hmem, by simp [updateDelta, hfind, hch, hreg]⟩
  · intro cfl hcfl hurl
    rw [computeSyncDiff_conflicts] at hcfl
    rcases List.mem_flatMap.mp hcfl with ⟨e, he, hin⟩
    have heq : cfl.githubUrl = e.1 := conflictDelta_githubUrl _ _ _ e cfl hin
    have he1 : e.1 = githubUrl := by rw [← heq, hurl]
    have he2 : e.2 = disc := huniq e he he1
    rw [show e = (githubUrl, disc) from Prod.ext he1 he2] at hin
    simp [conflictDelta, hfind, hch, hreg] at hin
  · refine ⟨(fun _ => none), registryW, [("url-old", discW)], lockW,
      configW ConflictPolicy.skip false, ?_⟩
    decide

/-- Witness for C9 at a concrete registry miss. -/
theorem registry_absence_means_update_witness :
    ({ name := "skill-old", githubUrl := "url-old", subIds := ["sub-1"],
       updatedAt := "2" } : SyncDiffItem)
        ∈ (computeSyncDiff (fun _ => none) [("url-old", discW)] lockW
            (configW ConflictPolicy.skip false)).toUpdate :=
  (registry_absence_means_update (fun _ => none) [("url-old", discW)] lockW
    (configW ConflictPolicy.skip false) "url-old" discW lockedSkillW
    (by decide) (by simp) rfl (by decide) rfl).1.1

/-! ## Claim C5: long-line protection in scanSkillContent -/

/-- The `buildResult` returns its threat list unchanged. -/
theorem buildResult_threats (hash : String → String) (ts : List Threat) (content : String) :
    (buildResult hash ts content).threats = ts := rfl

/-- A pass that starts beyond index `i` leaves the threats recorded at line
`i + 1` unchanged: every push carries a later line number. -/
theorem scanPatternLines_filter_after (p : ThreatPattern) (i : Nat) :
    ∀ (ls : List String) (k : Nat) (ts : List Threat) (log : List (String × Nat)), i < k →
    (scanPatternLines p k ls ts log).1.filter (fun t => t.line == some (i + 1))
      = ts.filter (fun t => t.line == some (i + 1)) := by
  intro ls
  induction ls with
  | nil => intro k ts log hk; rfl
  | cons l rest ih =>
    intro k ts log hk
    have hne : ¬((k + 1 : Nat) = (i + 1 : Nat)) := by omega
    simp only [scanPatternLines]
    split
    · rw [ih (k + 1) _ _ (by omega)]
      split
      · rfl
      · rw [List.filter_append]
        simp [excessiveLineThreat, hne]
    · rw [ih (k + 1) _ _ (by omega)]
      split
      · split
        · rfl
        · rw [List.filter_append]
          simp [patternThreat, hne]
      · rfl

/-- Sweeping one pattern over lines that contain the over-long `line` at
index `i` records exactly one synthetic threat at line `i + 1` (or keeps the
one already recorded). -/
theorem scanPatternLines_filter_long (p : ThreatPattern) (i : Nat) (line : String)
    (hlong : line.length > MAX_LINE_LENGTH) :
    ∀ (ls : List String) (k : Nat) (ts : List Threat) (log : List (String × Nat)),
    k ≤ i → ls.get? (i - k) = some line →
    (ts.filter (fun t => t.line == some (i + 1)) = []
      ∨ ts.filter (fun t => t.line == some (i + 1)) = [excessiveLineThreat line i]) →
    (scanPatternLines p k ls ts log).1.filter (fun t => t.line == some (i + 1))
      = [excessiveLineThreat line i] := by
  intro ls
  induction ls with
  | nil =>
    intro k ts log hk hget hinv
    simp at hget
  | cons l rest ih =>
    intro k ts log hk hget hinv
    by_cases hki : k = i
    · have h0 : i - k = 0 := by omega
      rw [h0] at hget
      have hl : l = line := by simpa using hget
      subst hl
      subst hki
      simp only [scanPatternLines, if_pos hlong]
      rw [scanPatternLines_filter_after p k rest (k + 1) _ _ (by omega)]
      rcases hinv with hempty | hone
      · have hflag : alreadyFlagged ts k = false := by
          rw [alreadyFlagged, List.any_eq_false]
          intro t ht hcond
          simp only [Bool.and_eq_true] at hcond
          have : t ∈ ts.filter (fun t => t.line == some (k + 1)) :=
            List.mem_filter.mpr ⟨ht, hcond.2⟩
          rw [hempty] at this
          simp at this
        rw [if_neg (by simp [hflag])]
        rw [List.filter_append, hempty]
        simp [excessiveLineThreat]
      · have hexc : excessiveLineThreat l k ∈ ts := by
          have : excessiveLineThreat l k ∈ ts.filter (fun t => t.line == some (k + 1)) := by
            rw [hone]
            simp
          exact (List.mem_filter.mp this).1
        have hflag : alreadyFlagged ts k = true := by
          rw [alreadyFlagged, List.any_eq_true]
          exact ⟨excessiveLineThreat l k, hexc, by simp [excessiveLineThreat]⟩
        rw [if_pos (by simp [hflag])]
        exact hone
    · have hklt : k < i := lt_of_le_of_ne hk hki
      have hget2 : rest.get? (i - (k + 1)) = some line := by
        have hik : i - k = (i - (k + 1)) + 1 := by omega
        rw [hik] at hget
        simpa using hget
      have hne : ¬((k + 1 : Nat) = (i + 1 : Nat)) := by omega
      simp only [scanPatternLines]
      split
      · apply ih (k + 1) _ _ (by omega) hget2
        split
        · exact hinv
        · rw [List.filter_append]
          rcases hinv with hempty | hone
          · exact Or.inl (by rw [hempty]; simp [excessiveLineThreat, hne])
          · exact Or.inr (by rw [hone]; simp [excessiveLineThreat, hne])
      · apply ih (k + 1) _ _ (by omega) hget2
        split
        · split
          · exact hinv
          · rw [List.filter_append]
            rcases hinv with hempty | hone
            · exact Or.inl (by rw [hempty]; simp [patternThreat, hne])
            · exact Or.inr (by rw [hone]; simp [patternThreat, hne])
        · exact hinv

/-- The outer pattern loop, on content whose line `i` is over-long, always
ends with exactly the synthetic threat recorded at line `i + 1`. -/
theorem scanPatternsLines_filter_long (i : Nat) (line : String)
    (hlong : line.length > MAX_LINE_LENGTH) (lines : List String)
    (hget : lines.get? i = some line) :
    ∀ (ps : List ThreatPattern) (ts : List Threat) (log : List (String × Nat)),
    (ts.filter (fun t => t.line == some (i + 1)) = []
      ∨ ts.filter (fun t => t.line == some (i + 1)) = [excessiveLineThreat line i]) →
    ps ≠ [] →
    (scanPatternsLines ps lines ts log).1.filter (fun t => t.line == some (i + 1))
      = [excessiveLineThreat line i] := by
  intro ps
  induction ps with
  | nil =>
    intro ts log hinv hne
    exact absurd rfl hne
  | cons p rest ih =>
    intro ts log hinv hne
    simp only [scanPatternsLines]
    rcases eq_or_ne rest [] with hr | hr
    · subst hr
      simp only [scanPatternsLines]
      exact scanPatternLines_filter_long p i line hlong lines 0 ts log (Nat.zero_le i)
        (by simpa using hget) hinv
    · apply ih _ _ (Or.inr ?_) hr
      exact scanPatternLines_filter_long p i line hlong lines 0 ts log (Nat.zero_le i)
        (by simpa using hget) hinv

/-- The multiline pass records no line numbers, so the threats at any line
`i + 1` are unchanged. -/
theorem scanMultiline_filter (content : String) (i : Nat) :
    ∀ (ms : List MultilinePattern) (ts : List Threat),
    (scanMultiline ms content ts).filter (fun t => t.line == some (i + 1))
      = ts.filter (fun t => t.line == some (i + 1)) := by
  intro ms
  induction ms with
  | nil => intro ts; rfl
  | cons m rest ih =>
    intro ts
    have hstep : scanMultiline (m :: rest) content ts
        = scanMultiline rest content
            (if m.test (cappedContent content) then
              ts ++ [{ pattern := m.src, severity := m.severity,
                       description := m.description, line := none, category := m.category }]
             else ts) := rfl
    rw [hstep, ih]
    split
    · rw [List.filter_append]
      simp
    · rfl

/-- A pass over lines containing the over-long `line` at index `i` never
logs a regex evaluation against index `i`. -/
theorem scanPatternLines_log_no_entry (p : ThreatPattern) (i : Nat) (line : String)
    (hlong : line.length > MAX_LINE_LENGTH) :
    ∀ (ls : List String) (k : Nat) (ts : List Threat) (log : List (String × Nat)),
    (k ≤ i → ls.get? (i - k) = some line) →
    ∀ s, ((s, i) ∈ (scanPatternLines p k ls ts log).2 ↔ (s, i) ∈ log) := by
  intro ls
  induction ls with
  | nil => intro k ts log hget s; rfl
  | cons l rest ih =>
    intro k ts log hget s
    have hget2 : (k + 1 ≤ i) → rest.get? (i - (k + 1)) = some line := by
      intro hk1
      have hik : i - k = (i - (k + 1)) + 1 := by omega
      have := hget (by omega)
      rw [hik] at this
      simpa using this
    simp only [scanPatternLines]
    split
    · exact ih (k + 1) _ _ hget2 s
    · rename_i hshort
      have hki : k ≠ i := by
        intro he
        subst he
        have h0 : k - k = 0 := by omega
        have hl : l = line := by
          have := hget (le_refl k)
          rw [h0] at this
          simpa using this
        rw [hl] at hshort
        exact hshort hlong
      rw [ih (k + 1) _ _ hget2 s]
      simp [Prod.ext_iff, Ne.symm hki]

/-- The outer pattern loop never logs an evaluation against an over-long
line. -/
theorem scanPatternsLines_log_no_entry (i : Nat) (line : String)
    (hlong : line.length > MAX_LINE_LENGTH) (lines : List String)
    (hget : lines.get? i = some line) :
    ∀ (ps : List ThreatPattern) (ts : List Threat) (log : List (String × Nat)) (s : String),
    ((s, i) ∈ (scanPatternsLines ps lines ts log).2 ↔ (s, i) ∈ log) := by
  intro ps
  induction ps with
  | nil => intro ts log s; rfl
  | cons p rest ih =>
    intro ts log s
    simp only [scanPatternsLines]
    rw [ih]
    exact scanPatternLines_log_no_entry p i line hlong lines 0 ts log
      (fun _ => by simpa using hget) s

/-- The evaluation log only grows during a pass. -/
theorem scanPatternLines_log_mono (p : ThreatPattern) :
    ∀ (ls : List String) (k : Nat) (ts : List Threat) (log : List (String × Nat))
      (e : String × Nat), e ∈ log → e ∈ (scanPatternLines p k ls ts log).2 := by
  intro ls
  induction ls with
  | nil => intro k ts log e he; exact he
  | cons l rest ih =>
    intro k ts log e he
    simp only [scanPatternLines]
    split
    · exact ih (k + 1) _ _ e he
    · exact ih (k + 1) _ _ e (by simp [he])

/-- The evaluation log only grows across passes. -/
theorem scanPatternsLines_log_mono :
    ∀ (ps : List ThreatPattern) (lines : List String) (ts : List Threat)
      (log : List (String × Nat)) (e : String × Nat),
      e ∈ log → e ∈ (scanPatternsLines ps lines ts log).2 := by
  intro ps
  induction ps with
  | nil => intro lines ts log e he; exact he
  | cons p rest ih =>
    intro lines ts log e he
    simp only [scanPatternsLines]
    exact ih lines _ _ e (scanPatternLines_log_mono p lines 0 ts log e he)

/-- A pass over lines containing the short `line` at index `i` logs an
evaluation of the pattern against index `i`. -/
theorem scanPatternLines_log_tested (p : ThreatPattern) (i : Nat) (line : String)
    (hshort : ¬(line.length > MAX_LINE_LENGTH)) :
    ∀ (ls : List String) (k : Nat) (ts : List Threat) (log : List (String × Nat)),
    k ≤ i → ls.get? (i - k) = some line →
    (p.src, i) ∈ (scanPatternLines p k ls ts log).2 := by
  intro ls
  induction ls with
  | nil =>
    intro k ts log hk hget
    simp at hget
  | cons l rest ih =>
    intro k ts log hk hget
    by_cases hki : k = i
    · have h0 : i - k = 0 := by omega
      rw [h0] at hget
      have hl : l = line := by simpa using hget
      subst hl
      subst hki
      simp only [scanPatternLines, if_neg hshort]
      exact scanPatternLines_log_mono p rest (k + 1) _ _ (p.src, k) (by simp)
    · have hklt : k < i := lt_of_le_of_ne hk hki
      have hget2 : rest.get? (i - (k + 1)) = some line := by
        have hik : i - k = (i - (k + 1)) + 1 := by omega
        rw [hik] at hget
        simpa using hget
      simp only [scanPatternLines]
      split
      · exact ih (k + 1) _ _ (by omega) hget2
      · exact ih (k + 1) _ _ (by omega) hget2

/-- Every pattern of the catalog is logged as evaluated against every short
line. -/
theorem scanPatternsLines_log_tested (i : Nat) (line : String)
    (hshort : ¬(line.length > MAX_LINE_LENGTH)) (lines : List String)
    (hget : lines.get? i = some line) :
    ∀ (ps : List ThreatPattern) (ts : List Threat) (log : List (String × Nat))
      (p : ThreatPattern), p ∈ ps →
      (p.src, i) ∈ (scanPatternsLines ps lines ts log).2 := by
  intro ps
  induction ps with
  | nil =>
    intro ts log p hp
    simp at hp
  | cons p0 rest ih =>
    intro ts log p hp
    simp only [scanPatternsLines]
    rcases List.mem_cons.mp hp with rfl | hp2
    · apply scanPatternsLines_log_mono rest lines _ _ (p.src, i)
      exact scanPatternLines_log_tested p i line hshort lines 0 ts log (Nat.zero_le i)
        (by simpa using hget)
    · exact ih _ _ p hp2

/-- C5: in `scanSkillContent`, an over-long line is never evaluated against
any single-line pattern, and exactly one synthetic excessive-line-length
warning is recorded for it no matter how many (≥ 1) patterns the catalog
holds, while lines at or under the limit are tested against every pattern. -/
theorem long_line_protection (hash : String → String) (crit warn : List ThreatPattern)
    (multi : List MultilinePattern) (content : String) (i : Nat) (line : String)
    (hget : (splitOnChar '\n' content).get? i = some line) :
    (line.length > MAX_LINE_LENGTH →
      (crit ++ warn ≠ [] →
        (scanSkillContent hash crit warn multi content).1.threats.filter
            (fun t => t.line == some (i + 1)) = [excessiveLineThreat line i])
      ∧ ∀ s : String, (s, i) ∉ (scanSkillContent hash crit warn multi content).2)
    ∧ (line.length ≤ MAX_LINE_LENGTH →
      ∀ p ∈ crit ++ warn, (p.src, i) ∈ (scanSkillContent hash crit warn multi content).2) := by
  constructor
  · intro hlong
    constructor
    · intro hne
      simp only [scanSkillContent, buildResult_threats]
      rw [scanMultiline_filter]
      exact scanPatternsLines_filter_long i line hlong _ hget (crit ++ warn) [] []
        (Or.inl rfl) hne
    · intro s hmem
      simp only [scanSkillContent] at hmem
      rw [scanPatternsLines_log_no_entry i line hlong _ hget] at hmem
      simp at hmem
  · intro hshort p hp
    simp only [scanSkillContent]
    exact scanPatternsLines_log_tested i line (by omega) _ hget (crit ++ warn) [] [] p hp

/-- A 2001-character line, one character over `MAX_LINE_LENGTH`. -/
def longLineW : String := String.mk (List.replicate 2001 'a')

/-- A never-matching warning pattern for the C5 witness. -/
def warnPatternW : ThreatPattern :=
  { test := fun _ => false
    src := "wpat"
    severity := Severity.warning
    description := "never matches"
    category := "test" }

/-- Witness for C5 on a concrete one-line over-long content. -/
theorem long_line_protection_witness :
    (scanSkillContent (fun _ => "") [] [warnPatternW] [] longLineW).1.threats.filter
        (fun t => t.line == some 1) = [excessiveLineThreat longLineW 0]
    ∧ ∀ s : String, (s, 0) ∉ (scanSkillContent (fun _ => "") [] [warnPatternW] [] longLineW).2 := by
  have hsplit : splitOnChar '\n' longLineW = [longLineW] := by
    unfold splitOnChar
    rw [splitOnCharAux_no_sep '\n' longLineW.data [] ?hns]
    · rfl
    case hns =>
      intro c hc
      have hdata : longLineW.data = List.replicate 2001 'a' := rfl
      rw [hdata] at hc
      have hca : c = 'a' := List.eq_of_mem_replicate hc
      subst hca
      decide
  have hget : (splitOnChar '\n' longLineW).get? 0 = some longLineW := by
    rw [hsplit]
    rfl
  have hlen : longLineW.length > MAX_LINE_LENGTH := by
    show longLineW.data.length > 2000
    have hdata : longLineW.data = List.replicate 2001 'a' := rfl
    rw [hdata, List.length_replicate]
    omega
  have h := long_line_protection (fun _ => "") [] [warnPatternW] [] longLineW 0 longLineW hget
  exact ⟨(h.1 hlen).1 (by simp), (h.1 hlen).2⟩

end SkillsMP
